import Mathlib

/-!
Verification model of `src/store.rs` (the content-addressed expression store of
a Lisp-family evaluator).

Modelling conventions:

* The prime field `F` is modelled by `Nat`.  The only field operations the
  store performs are `F::from(u64)` (an injection, modelled as the identity on
  `Nat`), `F::zero()` (modelled as `0`) and equality; Poseidon is treated as a
  black-box pure hash family `H_n : F^n → F`, modelled by the three function
  fields `h4`, `h6`, `h8` carried by the `Store` (mirroring the per-store
  `poseidon_cache` and its lazily initialised constants; the cache itself is a
  memoization table for a pure function, so it is semantically transparent).
* `IndexSet` (insertion-ordered set with dense indices) is modelled as a
  `List` without duplicates; `insert_full` is `insertFull` below.  The string
  interner (`StringSet`) has exactly the same get-or-intern semantics and is
  modelled by `insertFull` on `List String`.
* The two `DashMap` reverse maps (`scalar_ptr_map`, `scalar_ptr_cont_map`) are
  interior-mutable in Rust (hashing takes `&self` but inserts into them).  They
  are modelled as an explicitly threaded state `RMaps`, written only by
  `createScalarPtr` / `createContScalarPtr`, exactly as in the source.
* Rust panics (`expect`, `assert!`, `unreachable!`) and absent lookups are both
  modelled as `none`; every claim below only ever talks about `some` results,
  for which the two failure modes agree.
* The recursive hashing engine is embedded with a fuel parameter (`hashers`),
  a standard device for general recursion; fuel `0` yields `none`.
-/

set_option autoImplicit false

namespace LurkStore

/-- Expression tags, block base `0x0000` (`enum Tag` in the source). -/
inductive Tag where
  | Nil | Cons | Sym | Fun | Num | Thunk | Str
deriving DecidableEq, Repr

/-- Numeric value of an expression tag (`Tag as u64`). -/
def Tag.val : Tag → Nat
  | .Nil => 0
  | .Cons => 1
  | .Sym => 2
  | .Fun => 3
  | .Num => 4
  | .Thunk => 5
  | .Str => 6

/-- Continuation tags, block base `0x1000` (`enum ContTag`). -/
inductive ContTag where
  | Outermost | Simple | Call | Call2 | Tail | Error | Lookup | Unop
  | Binop | Binop2 | Relop | Relop2 | If | LetStar | LetRecStar | Dummy | Terminal
deriving DecidableEq, Repr

/-- Numeric value of a continuation tag (`ContTag as u64`). -/
def ContTag.val : ContTag → Nat
  | .Outermost => 0x1000
  | .Simple => 0x1001
  | .Call => 0x1002
  | .Call2 => 0x1003
  | .Tail => 0x1004
  | .Error => 0x1005
  | .Lookup => 0x1006
  | .Unop => 0x1007
  | .Binop => 0x1008
  | .Binop2 => 0x1009
  | .Relop => 0x100a
  | .Relop2 => 0x100b
  | .If => 0x100c
  | .LetStar => 0x100d
  | .LetRecStar => 0x100e
  | .Dummy => 0x100f
  | .Terminal => 0x1010

/-- Unary operators, block base `0x2000` (`enum Op1`). -/
inductive Op1 where
  | Car | Cdr | Atom
deriving DecidableEq, Repr

/-- Numeric value of a unary operator (`Op1 as u64`, used by `Op1::as_field`). -/
def Op1.val : Op1 → Nat
  | .Car => 0x2000
  | .Cdr => 0x2001
  | .Atom => 0x2002

/-- Binary operators, block base `0x3000` (`enum Op2`). -/
inductive Op2 where
  | Sum | Diff | Product | Quotient | Cons
deriving DecidableEq, Repr

/-- Numeric value of a binary operator (`Op2 as u64`). -/
def Op2.val : Op2 → Nat
  | .Sum => 0x3000
  | .Diff => 0x3001
  | .Product => 0x3002
  | .Quotient => 0x3003
  | .Cons => 0x3004

/-- Relational operators, block base `0x4000` (`enum Rel2`). -/
inductive Rel2 where
  | Equal | NumEqual
deriving DecidableEq, Repr

/-- Numeric value of a relational operator (`Rel2 as u64`). -/
def Rel2.val : Rel2 → Nat
  | .Equal => 0x4000
  | .NumEqual => 0x4001

/-- Typed expression pointer `Ptr(Tag, RawPtr)`; the raw pointer is a dense
index (`usize`), modelled as `Nat`. -/
structure Ptr where
  tag : Tag
  raw : Nat
deriving DecidableEq, Repr

/-- Field embedding of the tag of an expression pointer
(`Pointer::tag_field`, `F::from(tag as u64)`). -/
def Ptr.tagField (p : Ptr) : Nat := p.tag.val

/-- Typed continuation pointer `ContPtr(ContTag, RawPtr)`. -/
structure ContPtr where
  tag : ContTag
  raw : Nat
deriving DecidableEq, Repr

/-- Field embedding of the tag of a continuation pointer. -/
def ContPtr.tagField (p : ContPtr) : Nat := p.tag.val

/-- Scalar expression pointer `ScalarPtr(F, F)`: (tag-as-field, digest). -/
structure ScalarPtr where
  tag : Nat
  val : Nat
deriving DecidableEq, Repr

/-- Scalar continuation pointer `ScalarContPtr(F, F)`. -/
structure ScalarContPtr where
  tag : Nat
  val : Nat
deriving DecidableEq, Repr

/-- Modelled from the spec: the numeric payload type `crate::Num` is not under
`src/`; per the spec, it supports construction from machine integers and a
scalar-injection conversion `into_scalar` to the field, with numeric equality
being field equality.  We model it as a wrapper around the field value. -/
structure Num where
  val : Nat
deriving DecidableEq, Repr

/-- Scalar injection of a numeric value (`Num::into_scalar`, modelled from the
spec: the identity hash of Num is the numeric value as a field element). -/
def Num.into_scalar (n : Num) : Nat := n.val

/-- Thunk payload: `(value, continuation)` (`struct Thunk`). -/
structure Thunk where
  value : Ptr
  continuation : ContPtr
deriving DecidableEq, Repr

/-- Immutable view of an interned expression (`enum Expression`). -/
inductive Expression where
  | Nil : Expression
  | Cons : Ptr → Ptr → Expression
  | Sym : String → Expression
  | Fun : Ptr → Ptr → Ptr → Expression
  | Num : LurkStore.Num → Expression
  | Str : String → Expression
  | Thunk : LurkStore.Thunk → Expression
deriving DecidableEq, Repr

/-- Immutable view of an interned continuation (`enum Continuation`). -/
inductive Continuation where
  | Outermost : Continuation
  | Simple : ContPtr → Continuation
  | Call : Ptr → Ptr → ContPtr → Continuation
  | Call2 : Ptr → Ptr → ContPtr → Continuation
  | Tail : Ptr → ContPtr → Continuation
  | Error : Continuation
  | Lookup : Ptr → ContPtr → Continuation
  | Unop : Op1 → ContPtr → Continuation
  | Binop : Op2 → Ptr → Ptr → ContPtr → Continuation
  | Binop2 : Op2 → Ptr → ContPtr → Continuation
  | Relop : Rel2 → Ptr → Ptr → ContPtr → Continuation
  | Relop2 : Rel2 → Ptr → ContPtr → Continuation
  | If : Ptr → ContPtr → Continuation
  | LetStar : Ptr → Ptr → Ptr → ContPtr → Continuation
  | LetRecStar : Ptr → Ptr → Ptr → ContPtr → Continuation
  | Dummy : Continuation
  | Terminal : Continuation
deriving DecidableEq, Repr

/-- Index of the first occurrence of `x` in `l`, if any. -/
def findIdx {α : Type} [DecidableEq α] : List α → α → Option Nat
  | [], _ => none
  | a :: l, x => if a = x then some 0 else (findIdx l x).map (· + 1)

/-- Insertion into an insertion-ordered set (`IndexSet::insert_full`, and the
string interner's `get_or_intern`): return the dense index of `x`, appending
`x` at the end when it is new. -/
def insertFull {α : Type} [DecidableEq α] (l : List α) (x : α) : Nat × List α :=
  match findIdx l x with
  | some i => (i, l)
  | none => (l.length, l ++ [x])

/-- First-match association-list lookup (models `DashMap` reads; the maps are
keyed uniquely, so order is irrelevant). -/
def alookup {α β : Type} [DecidableEq α] : List (α × β) → α → Option β
  | [], _ => none
  | (k, v) :: l, k' => if k' = k then some v else alookup l k'

/-- Insert-if-absent (`DashMap::entry(k).or_insert(v)`). -/
def entryOrInsert {α β : Type} [DecidableEq α] (l : List (α × β)) (k : α) (v : β) :
    List (α × β) :=
  match alookup l k with
  | some _ => l
  | none => (k, v) :: l

/-- The two scalar-to-pointer reverse maps (`scalar_ptr_map` and
`scalar_ptr_cont_map`); interior-mutable `DashMap`s in the source, threaded
explicitly here. -/
structure RMaps where
  exprMap : List (ScalarPtr × Ptr)
  contMap : List (ScalarContPtr × ContPtr)
deriving DecidableEq, Repr

/-- The store: one insertion-ordered table per variant, the two string
interners, and the black-box Poseidon hash family for arities 4, 6, 8
(mirroring `poseidon_cache`).  The two reverse maps are threaded separately as
`RMaps` (see module comment). -/
structure Store where
  cons_store : List (Ptr × Ptr)
  sym_store : List String
  num_store : List Num
  fun_store : List (Ptr × Ptr × Ptr)
  str_store : List String
  thunk_store : List Thunk
  simple_store : List ContPtr
  call_store : List (Ptr × Ptr × ContPtr)
  call2_store : List (Ptr × Ptr × ContPtr)
  tail_store : List (Ptr × ContPtr)
  lookup_store : List (Ptr × ContPtr)
  unop_store : List (Op1 × ContPtr)
  binop_store : List (Op2 × Ptr × Ptr × ContPtr)
  binop2_store : List (Op2 × Ptr × ContPtr)
  relop_store : List (Rel2 × Ptr × Ptr × ContPtr)
  relop2_store : List (Rel2 × Ptr × ContPtr)
  if_store : List (Ptr × ContPtr)
  let_star_store : List (Ptr × Ptr × Ptr × ContPtr)
  let_rec_star_store : List (Ptr × Ptr × Ptr × ContPtr)
  h4 : List Nat → Nat
  h6 : List Nat → Nat
  h8 : List Nat → Nat

/-- ASCII upper-casing of one character (`u8::make_ascii_uppercase`). -/
def asciiUpperChar (c : Char) : Char :=
  if 'a' ≤ c ∧ c ≤ 'z' then Char.ofNat (c.toNat - 32) else c

/-- ASCII upper-casing of a symbol name (`Store::convert_sym_case`). -/
def convertSymCase (s : String) : String :=
  String.mk (s.data.map asciiUpperChar)

namespace Store

/-- Intern a symbol name as given (`intern_sym`): tag `Nil` iff the name is
exactly `"NIL"`, else `Sym`; the raw pointer is the string-interner id. -/
def internSym (s : Store) (name : String) : Ptr × Store :=
  let tag := if name = "NIL" then Tag.Nil else Tag.Sym
  let r := insertFull s.sym_store name
  (⟨tag, r.1⟩, { s with sym_store := r.2 })

/-- Intern a symbol with ASCII case conversion
(`intern_sym_with_case_conversion`). -/
def internSymCC (s : Store) (name : String) : Ptr × Store :=
  s.internSym (convertSymCase name)

/-- Borrowing symbol lookup (`get_sym`). -/
def getSym (s : Store) (name : String) (convertCase : Bool) : Option Ptr :=
  let name := if convertCase then convertSymCase name else name
  let tag := if name = "NIL" then Tag.Nil else Tag.Sym
  (findIdx s.sym_store name).map (fun i => ⟨tag, i⟩)

/-- Canonical NIL pointer (`get_nil`; the `expect` panic on a missing preload
is modelled as `none`). -/
def getNil (s : Store) : Option Ptr := s.getSym "nil" true

/-- Canonical T pointer (`get_t`). -/
def getT (s : Store) : Option Ptr := s.getSym "t" true

/-- Intern a cons cell (`intern_cons`). -/
def internCons (s : Store) (car cdr : Ptr) : Ptr × Store :=
  let r := insertFull s.cons_store (car, cdr)
  (⟨Tag.Cons, r.1⟩, { s with cons_store := r.2 })

/-- Intern a list as a right fold of conses ending in NIL (`intern_list`):
`elts.iter().rev().fold(self.sym("nil"), |acc, elt| self.cons(*elt, acc))`. -/
def internList (s : Store) (elts : List Ptr) : Ptr × Store :=
  elts.reverse.foldl (fun acc elt => acc.2.internCons elt acc.1) (s.internSymCC "nil")

/-- Intern a numeric value (`intern_num`). -/
def internNum (s : Store) (n : Num) : Ptr × Store :=
  let r := insertFull s.num_store n
  (⟨Tag.Num, r.1⟩, { s with num_store := r.2 })

/-- Intern a string (`intern_str`). -/
def internStr (s : Store) (name : String) : Ptr × Store :=
  let r := insertFull s.str_store name
  (⟨Tag.Str, r.1⟩, { s with str_store := r.2 })

/-- Borrowing string lookup (`get_str`). -/
def getStr (s : Store) (name : String) : Option Ptr :=
  (findIdx s.str_store name).map (fun i => ⟨Tag.Str, i⟩)

/-- Intern a function (`intern_fun`); the `assert!` that `arg` is a symbol is
modelled as `none`. -/
def internFun (s : Store) (arg body closed_env : Ptr) : Option (Ptr × Store) :=
  if arg.tag = Tag.Sym then
    let r := insertFull s.fun_store (arg, body, closed_env)
    some (⟨Tag.Fun, r.1⟩, { s with fun_store := r.2 })
  else none

/-- Intern a thunk (`intern_thunk`). -/
def internThunk (s : Store) (t : Thunk) : Ptr × Store :=
  let r := insertFull s.thunk_store t
  (⟨Tag.Thunk, r.1⟩, { s with thunk_store := r.2 })

/-- Canonical Outermost continuation (`get_cont_outermost`, backed by the
preloaded symbol `"OUTERMOST"`; `expect` modelled as `none`). -/
def getContOutermost (s : Store) : Option ContPtr :=
  (findIdx s.sym_store "OUTERMOST").map (fun i => ⟨ContTag.Outermost, i⟩)

/-- Canonical Error continuation (`get_cont_error`). -/
def getContError (s : Store) : Option ContPtr :=
  (findIdx s.sym_store "ERROR").map (fun i => ⟨ContTag.Error, i⟩)

/-- Canonical Terminal continuation (`get_cont_terminal`). -/
def getContTerminal (s : Store) : Option ContPtr :=
  (findIdx s.sym_store "TERMINAL").map (fun i => ⟨ContTag.Terminal, i⟩)

/-- Canonical Dummy continuation (`get_cont_dummy`). -/
def getContDummy (s : Store) : Option ContPtr :=
  (findIdx s.sym_store "DUMMY").map (fun i => ⟨ContTag.Dummy, i⟩)

/-- Intern a Call continuation (`intern_cont_call`). -/
def internContCall (s : Store) (a b : Ptr) (c : ContPtr) : ContPtr × Store :=
  let r := insertFull s.call_store (a, b, c)
  (⟨ContTag.Call, r.1⟩, { s with call_store := r.2 })

/-- Intern a Call2 continuation (`intern_cont_call2`). -/
def internContCall2 (s : Store) (a b : Ptr) (c : ContPtr) : ContPtr × Store :=
  let r := insertFull s.call2_store (a, b, c)
  (⟨ContTag.Call2, r.1⟩, { s with call2_store := r.2 })

/-- Intern a Tail continuation (`intern_cont_tail`). -/
def internContTail (s : Store) (a : Ptr) (b : ContPtr) : ContPtr × Store :=
  let r := insertFull s.tail_store (a, b)
  (⟨ContTag.Tail, r.1⟩, { s with tail_store := r.2 })

/-- Intern a Lookup continuation (`intern_cont_lookup`). -/
def internContLookup (s : Store) (a : Ptr) (b : ContPtr) : ContPtr × Store :=
  let r := insertFull s.lookup_store (a, b)
  (⟨ContTag.Lookup, r.1⟩, { s with lookup_store := r.2 })

/-- Intern a Unop continuation (`intern_cont_unop`). -/
def internContUnop (s : Store) (op : Op1) (a : ContPtr) : ContPtr × Store :=
  let r := insertFull s.unop_store (op, a)
  (⟨ContTag.Unop, r.1⟩, { s with unop_store := r.2 })

/-- Intern a Binop continuation (`intern_cont_binop`). -/
def internContBinop (s : Store) (op : Op2) (a b : Ptr) (c : ContPtr) : ContPtr × Store :=
  let r := insertFull s.binop_store (op, a, b, c)
  (⟨ContTag.Binop, r.1⟩, { s with binop_store := r.2 })

/-- Intern a Binop2 continuation (`intern_cont_binop2`). -/
def internContBinop2 (s : Store) (op : Op2) (a : Ptr) (b : ContPtr) : ContPtr × Store :=
  let r := insertFull s.binop2_store (op, a, b)
  (⟨ContTag.Binop2, r.1⟩, { s with binop2_store := r.2 })

/-- Intern a Relop continuation (`intern_cont_relop`). -/
def internContRelop (s : Store) (op : Rel2) (a b : Ptr) (c : ContPtr) : ContPtr × Store :=
  let r := insertFull s.relop_store (op, a, b, c)
  (⟨ContTag.Relop, r.1⟩, { s with relop_store := r.2 })

/-- Intern a Relop2 continuation (`intern_cont_relop2`). -/
def internContRelop2 (s : Store) (op : Rel2) (a : Ptr) (b : ContPtr) : ContPtr × Store :=
  let r := insertFull s.relop2_store (op, a, b)
  (⟨ContTag.Relop2, r.1⟩, { s with relop2_store := r.2 })

/-- Intern an If continuation (`intern_cont_if`). -/
def internContIf (s : Store) (a : Ptr) (b : ContPtr) : ContPtr × Store :=
  let r := insertFull s.if_store (a, b)
  (⟨ContTag.If, r.1⟩, { s with if_store := r.2 })

/-- Intern a LetStar continuation (`intern_cont_let_star`). -/
def internContLetStar (s : Store) (a b c : Ptr) (d : ContPtr) : ContPtr × Store :=
  let r := insertFull s.let_star_store (a, b, c, d)
  (⟨ContTag.LetStar, r.1⟩, { s with let_star_store := r.2 })

/-- Intern a LetRecStar continuation (`intern_cont_let_rec_star`). -/
def internContLetRecStar (s : Store) (a b c : Ptr) (d : ContPtr) : ContPtr × Store :=
  let r := insertFull s.let_rec_star_store (a, b, c, d)
  (⟨ContTag.LetRecStar, r.1⟩, { s with let_rec_star_store := r.2 })

/-- Fetch a symbol name (`fetch_sym`): a `Nil`-tagged pointer resolves to
`"NIL"` without consulting its raw index. -/
def fetchSym (s : Store) (p : Ptr) : Option String :=
  if p.tag = Tag.Nil then some "NIL" else s.sym_store.get? p.raw

/-- Fetch a string (`fetch_str`). -/
def fetchStr (s : Store) (p : Ptr) : Option String :=
  s.str_store.get? p.raw

/-- Fetch a function payload (`fetch_fun`). -/
def fetchFun (s : Store) (p : Ptr) : Option (Ptr × Ptr × Ptr) :=
  s.fun_store.get? p.raw

/-- Fetch a cons payload (`fetch_cons`). -/
def fetchCons (s : Store) (p : Ptr) : Option (Ptr × Ptr) :=
  s.cons_store.get? p.raw

/-- Fetch a numeric payload (`fetch_num`). -/
def fetchNum (s : Store) (p : Ptr) : Option Num :=
  s.num_store.get? p.raw

/-- Fetch a thunk payload (`fetch_thunk`). -/
def fetchThunk (s : Store) (p : Ptr) : Option Thunk :=
  s.thunk_store.get? p.raw

/-- Fetch the immutable view of an expression pointer (`fetch`). -/
def fetch (s : Store) (p : Ptr) : Option Expression :=
  match p.tag with
  | .Nil => some Expression.Nil
  | .Cons => (s.fetchCons p).map (fun x => Expression.Cons x.1 x.2)
  | .Sym => (s.fetchSym p).map Expression.Sym
  | .Num => (s.fetchNum p).map Expression.Num
  | .Fun => (s.fetchFun p).map (fun x => Expression.Fun x.1 x.2.1 x.2.2)
  | .Thunk => (s.fetchThunk p).map Expression.Thunk
  | .Str => (s.fetchStr p).map Expression.Str

/-- Fetch the immutable view of a continuation pointer (`fetch_cont`). -/
def fetchCont (s : Store) (p : ContPtr) : Option Continuation :=
  match p.tag with
  | .Outermost => some Continuation.Outermost
  | .Simple => (s.simple_store.get? p.raw).map Continuation.Simple
  | .Call => (s.call_store.get? p.raw).map (fun x => Continuation.Call x.1 x.2.1 x.2.2)
  | .Call2 => (s.call2_store.get? p.raw).map (fun x => Continuation.Call2 x.1 x.2.1 x.2.2)
  | .Tail => (s.tail_store.get? p.raw).map (fun x => Continuation.Tail x.1 x.2)
  | .Error => some Continuation.Error
  | .Lookup => (s.lookup_store.get? p.raw).map (fun x => Continuation.Lookup x.1 x.2)
  | .Unop => (s.unop_store.get? p.raw).map (fun x => Continuation.Unop x.1 x.2)
  | .Binop =>
    (s.binop_store.get? p.raw).map (fun x => Continuation.Binop x.1 x.2.1 x.2.2.1 x.2.2.2)
  | .Binop2 =>
    (s.binop2_store.get? p.raw).map (fun x => Continuation.Binop2 x.1 x.2.1 x.2.2)
  | .Relop =>
    (s.relop_store.get? p.raw).map (fun x => Continuation.Relop x.1 x.2.1 x.2.2.1 x.2.2.2)
  | .Relop2 =>
    (s.relop2_store.get? p.raw).map (fun x => Continuation.Relop2 x.1 x.2.1 x.2.2)
  | .If => (s.if_store.get? p.raw).map (fun x => Continuation.If x.1 x.2)
  | .LetStar =>
    (s.let_star_store.get? p.raw).map
      (fun x => Continuation.LetStar x.1 x.2.1 x.2.2.1 x.2.2.2)
  | .LetRecStar =>
    (s.let_rec_star_store.get? p.raw).map
      (fun x => Continuation.LetRecStar x.1 x.2.1 x.2.2.1 x.2.2.2)
  | .Dummy => some Continuation.Dummy
  | .Terminal => some Continuation.Terminal

/-- Destructure a cons or nil (`car_cdr`): `(NIL, NIL)` on a Nil-tagged
pointer, the stored pair on a Cons-tagged pointer with a live slot, and a
fatal error (modelled `none`) otherwise. -/
def carCdr (s : Store) (p : Ptr) : Option (Ptr × Ptr) :=
  match p.tag with
  | .Nil =>
    match s.getNil with
    | some n => some (n, n)
    | none => none
  | .Cons =>
    match s.fetch p with
    | some (Expression.Cons car cdr) => some (car, cdr)
    | _ => none
  | _ => none

end Store

/-- UTF-8 byte size of one character (`char` byte length; `str::len` counts
bytes). -/
def charUtf8Size (c : Char) : Nat :=
  if c.toNat < 0x80 then 1
  else if c.toNat < 0x800 then 2
  else if c.toNat < 0x10000 then 3
  else 4

/-- UTF-8 byte length of a string (`str::len`). -/
def utf8Len (s : String) : Nat :=
  s.data.foldl (fun n c => n + charUtf8Size c) 0

/-- Unicode scalar values of a string as field elements
(`s.chars().map(|c| F::from(c as u64))`). -/
def strCodes (s : String) : List Nat :=
  s.data.map Char.toNat

/-- Partition into chunks of seven, left to right, last chunk possibly short
(`itertools` `chunks(7)`). -/
def chunks7 : List Nat → List (List Nat)
  | [] => []
  | [a] => [[a]]
  | [a, b] => [[a, b]]
  | [a, b, c] => [[a, b, c]]
  | [a, b, c, d] => [[a, b, c, d]]
  | [a, b, c, d, e] => [[a, b, c, d, e]]
  | [a, b, c, d, e, f] => [[a, b, c, d, e, f]]
  | [a, b, c, d, e, f, g] => [[a, b, c, d, e, f, g]]
  | a :: b :: c :: d :: e :: f :: g :: h :: rest =>
    [a, b, c, d, e, f, g] :: chunks7 (h :: rest)

/-- One iteration of the `hash_string` chunk loop.  The state is the mutable
`preimage` buffer together with the accumulator `x`; slot 0 is overwritten
with `x`, the first `chunk.length` of slots 1..7 are overwritten with the
chunk, and the remaining slots RETAIN their previous contents (the buffer is
declared outside the loop in the source). -/
def hashStringStep (h8 : List Nat → Nat) (st : List Nat × Nat) (chunk : List Nat) :
    List Nat × Nat :=
  let pre := st.2 :: (chunk ++ st.1.drop (chunk.length + 1))
  (pre, h8 pre)

/-- Core of `hash_string` on the already-extracted codepoint list: buffer
starts as eight zeros, the accumulator starts as the byte length, and the
final accumulator is the digest. -/
def hashStringNat (h8 : List Nat → Nat) (len : Nat) (cs : List Nat) : Nat :=
  ((chunks7 cs).foldl (hashStringStep h8) (List.replicate 8 0, len)).2

/-- Digest of a string (`Store::hash_string`). -/
def Store.hashString (s : Store) (str : String) : Nat :=
  hashStringNat s.h8 (utf8Len str) (strCodes str)

/-- Modelled from the spec's words (for comparison with the source's
`hash_string`): "partition ... into chunks of seven, left to right, padding
the final chunk with zero field elements to reach seven elements", each chunk
hashed as `H₈([x, c₀, …, c₆])`. -/
def hashStringSpecZeroPad (h8 : List Nat → Nat) (len : Nat) (cs : List Nat) : Nat :=
  (chunks7 cs).foldl
    (fun x c => h8 (x :: (c ++ List.replicate (7 - c.length) 0))) len

/-- Padding of a (possibly short) chunk with the trailing elements of the
previous preimage contents: what the source's persistent buffer actually
produces. -/
def padChunk (prev c : List Nat) : List Nat := c ++ prev.drop c.length

/-- The amended string-hash description: like the zero-padding variant, but a
partial chunk is padded with the corresponding trailing elements of the
previous chunk's preimage slots (all zeros only for the very first chunk). -/
def hashStringAmended (h8 : List Nat → Nat) (len : Nat) (cs : List Nat) : Nat :=
  ((chunks7 cs).foldl
    (fun st c => (padChunk st.1 c, h8 (st.2 :: padChunk st.1 c)))
    (List.replicate 7 0, len)).2

/-- The well-known symbols preloaded by `Store::default`, in insertion
order. -/
def wellKnownSymbols : List String :=
  ["nil", "t", "quote", "lambda", "_", "let*", "letrec*", "car", "cdr", "atom",
   "+", "-", "*", "/", "=", "eq", "current-env", "if", "terminal", "dummy",
   "outermost", "error"]

/-- A store with empty tables and the given Poseidon family. -/
def emptyStore (h4 h6 h8 : List Nat → Nat) : Store :=
  { cons_store := [], sym_store := [], num_store := [], fun_store := []
    str_store := [], thunk_store := [], simple_store := [], call_store := []
    call2_store := [], tail_store := [], lookup_store := [], unop_store := []
    binop_store := [], binop2_store := [], relop_store := [], relop2_store := []
    if_store := [], let_star_store := [], let_rec_star_store := []
    h4 := h4, h6 := h6, h8 := h8 }

/-- `Store::default()`: the empty store with the well-known symbols interned
through the ordinary symbol-interning path. -/
def defaultStore (h4 h6 h8 : List Nat → Nat) : Store :=
  wellKnownSymbols.foldl (fun s n => (s.internSymCC n).2) (emptyStore h4 h6 h8)

/-- Short-circuiting sequencing of map-threading computations: the monadic
shape of Rust's `?` operator over `Option` combined with the interior-mutable
reverse maps. -/
def bindH {α β : Type} (x : Option α × RMaps) (g : α → RMaps → Option β × RMaps) :
    Option β × RMaps :=
  match x with
  | (none, m) => (none, m)
  | (some a, m) => g a m

/-- Type of the expression-hashing callback threaded through the fueled
engine. -/
abbrev ExprHasher : Type := Store → RMaps → Ptr → Option ScalarPtr × RMaps

/-- Type of the continuation-hashing callback. -/
abbrev ContHasher : Type := Store → RMaps → ContPtr → Option ScalarContPtr × RMaps

/-- Canonical scalar-pointer constructor (`create_scalar_ptr`): builds
`ScalarPtr(tag_field, hash)` and inserts it into the reverse map if absent. -/
def createScalarPtr (m : RMaps) (p : Ptr) (h : Nat) : ScalarPtr × RMaps :=
  let sc : ScalarPtr := ⟨p.tagField, h⟩
  (sc, { m with exprMap := entryOrInsert m.exprMap sc p })

/-- Canonical continuation scalar-pointer constructor
(`create_cont_scalar_ptr`). -/
def createContScalarPtr (m : RMaps) (p : ContPtr) (h : Nat) : ScalarContPtr × RMaps :=
  let sc : ScalarContPtr := ⟨p.tagField, h⟩
  (sc, { m with contMap := entryOrInsert m.contMap sc p })

/-- Arity-4 digest of two scalar pointers (`hash_scalar_ptrs_2`). -/
def hashScalarPtrs2 (s : Store) (a b : ScalarPtr) : Nat :=
  s.h4 [a.tag, a.val, b.tag, b.val]

/-- Arity-6 digest of three scalar pointers (`hash_scalar_ptrs_3`). -/
def hashScalarPtrs3 (s : Store) (a b c : ScalarPtr) : Nat :=
  s.h6 [a.tag, a.val, b.tag, b.val, c.tag, c.val]

/-- Digest of a symbol pointer (`hash_sym`): the string digest of its name. -/
def hashSym (s : Store) (m : RMaps) (p : Ptr) : Option ScalarPtr × RMaps :=
  match s.fetchSym p with
  | none => (none, m)
  | some str =>
    let r := createScalarPtr m p (s.hashString str)
    (some r.1, r.2)

/-- Digest of a string pointer (`hash_str`). -/
def hashStr (s : Store) (m : RMaps) (p : Ptr) : Option ScalarPtr × RMaps :=
  match s.fetchStr p with
  | none => (none, m)
  | some str =>
    let r := createScalarPtr m p (s.hashString str)
    (some r.1, r.2)

/-- Digest of a numeric pointer (`hash_num`): the identity hash. -/
def hashNum (s : Store) (m : RMaps) (p : Ptr) : Option ScalarPtr × RMaps :=
  match s.fetchNum p with
  | none => (none, m)
  | some n =>
    let r := createScalarPtr m p n.into_scalar
    (some r.1, r.2)

/-- Digest of NIL (`hash_nil`): nil hashes as the canonical symbol `NIL`. -/
def hashNil (s : Store) (m : RMaps) : Option ScalarPtr × RMaps :=
  match s.getNil with
  | none => (none, m)
  | some n => hashSym s m n

/-- Slot for a unary operator (`hash_op1` followed by
`into_hash_components`). -/
def hashOp1 (op : Op1) : Nat × Nat := (op.val, 0)

/-- Slot for a binary operator (`hash_op2`). -/
def hashOp2 (op : Op2) : Nat × Nat := (op.val, 0)

/-- Slot for a relational operator (`hash_rel2`). -/
def hashRel2 (op : Rel2) : Nat × Nat := (op.val, 0)

/-- Hash components of a scalar pointer (`into_hash_components`). -/
def exprSlot (a : ScalarPtr) : Nat × Nat := (a.tag, a.val)

/-- Hash components of a continuation scalar pointer. -/
def contSlot (a : ScalarContPtr) : Nat × Nat := (a.tag, a.val)

/-- The all-zero default slot `DEF = [0, 0]`. -/
def defSlot : Nat × Nat := (0, 0)

/-- Flatten four 2-element slots in slot-major order into the 8-element
preimage fed to `H₈`. -/
def flatten4 (l : List (Nat × Nat)) : List Nat :=
  l.foldr (fun p acc => p.1 :: p.2 :: acc) []

/-- Digests of two expression pointers then `H₄` (`hash_ptrs_2`). -/
def hashPtrs2G (he : ExprHasher) (s : Store) (m : RMaps) (a b : Ptr) :
    Option Nat × RMaps :=
  bindH (he s m a) fun x m₁ =>
  bindH (he s m₁ b) fun y m₂ =>
  (some (hashScalarPtrs2 s x y), m₂)

/-- Digests of three expression pointers then `H₆` (`hash_ptrs_3`). -/
def hashPtrs3G (he : ExprHasher) (s : Store) (m : RMaps) (a b c : Ptr) :
    Option Nat × RMaps :=
  bindH (he s m a) fun x m₁ =>
  bindH (he s m₁ b) fun y m₂ =>
  bindH (he s m₂ c) fun z m₃ =>
  (some (hashScalarPtrs3 s x y z), m₃)

/-- Digest of a cons pointer (`hash_cons`). -/
def hashConsG (he : ExprHasher) (s : Store) (m : RMaps) (p : Ptr) :
    Option ScalarPtr × RMaps :=
  match s.fetchCons p with
  | none => (none, m)
  | some (car, cdr) =>
    bindH (hashPtrs2G he s m car cdr) fun h m₁ =>
    let r := createScalarPtr m₁ p h
    (some r.1, r.2)

/-- Digest of a function pointer (`hash_fun`). -/
def hashFunG (he : ExprHasher) (s : Store) (m : RMaps) (p : Ptr) :
    Option ScalarPtr × RMaps :=
  match s.fetchFun p with
  | none => (none, m)
  | some (arg, body, closed_env) =>
    bindH (hashPtrs3G he s m arg body closed_env) fun h m₁ =>
    let r := createScalarPtr m₁ p h
    (some r.1, r.2)

/-- The 4-element thunk preimage (`get_hash_components_thunk`). -/
def getHashComponentsThunkG (he : ExprHasher) (hc : ContHasher) (s : Store)
    (m : RMaps) (th : Thunk) : Option (List Nat) × RMaps :=
  bindH (he s m th.value) fun v m₁ =>
  bindH (hc s m₁ th.continuation) fun k m₂ =>
  (some [v.tag, v.val, k.tag, k.val], m₂)

/-- Digest of a thunk pointer (`hash_thunk`). -/
def hashThunkG (he : ExprHasher) (hc : ContHasher) (s : Store) (m : RMaps)
    (p : Ptr) : Option ScalarPtr × RMaps :=
  match s.fetchThunk p with
  | none => (none, m)
  | some th =>
    bindH (getHashComponentsThunkG he hc s m th) fun comps m₁ =>
    let r := createScalarPtr m₁ p (s.h4 comps)
    (some r.1, r.2)

/-- Slots for the nullary continuations (`get_hash_components_default`). -/
def getHashComponentsDefault : List (Nat × Nat) :=
  [defSlot, defSlot, defSlot, defSlot]

/-- Slots for `Simple(c)` (`get_hash_components_simple`). -/
def getHashComponentsSimpleG (hc : ContHasher) (s : Store) (m : RMaps)
    (c : ContPtr) : Option (List (Nat × Nat)) × RMaps :=
  bindH (hc s m c) fun k m₁ =>
  (some [contSlot k, defSlot, defSlot, defSlot], m₁)

/-- Slots for `Call(arg, saved_env, cont)` (`get_hash_components_call`): the
saved env precedes the argument. -/
def getHashComponentsCallG (he : ExprHasher) (hc : ContHasher) (s : Store)
    (m : RMaps) (arg saved_env : Ptr) (cont : ContPtr) :
    Option (List (Nat × Nat)) × RMaps :=
  bindH (he s m arg) fun a m₁ =>
  bindH (he s m₁ saved_env) fun e m₂ =>
  bindH (hc s m₂ cont) fun k m₃ =>
  (some [exprSlot e, exprSlot a, contSlot k, defSlot], m₃)

/-- Slots for `Call2(fun, saved_env, cont)` (`get_hash_components_call2`):
the saved env precedes the function. -/
def getHashComponentsCall2G (he : ExprHasher) (hc : ContHasher) (s : Store)
    (m : RMaps) (f saved_env : Ptr) (cont : ContPtr) :
    Option (List (Nat × Nat)) × RMaps :=
  bindH (he s m f) fun x m₁ =>
  bindH (he s m₁ saved_env) fun e m₂ =>
  bindH (hc s m₂ cont) fun k m₃ =>
  (some [exprSlot e, exprSlot x, contSlot k, defSlot], m₃)

/-- Slots for `Tail(saved_env, cont)` (`get_hash_components_tail`). -/
def getHashComponentsTailG (he : ExprHasher) (hc : ContHasher) (s : Store)
    (m : RMaps) (saved_env : Ptr) (cont : ContPtr) :
    Option (List (Nat × Nat)) × RMaps :=
  bindH (he s m saved_env) fun e m₁ =>
  bindH (hc s m₁ cont) fun k m₂ =>
  (some [exprSlot e, contSlot k, defSlot, defSlot], m₂)

/-- Slots for `Lookup(saved_env, cont)` (`get_hash_components_lookup`). -/
def getHashComponentsLookupG (he : ExprHasher) (hc : ContHasher) (s : Store)
    (m : RMaps) (saved_env : Ptr) (cont : ContPtr) :
    Option (List (Nat × Nat)) × RMaps :=
  bindH (he s m saved_env) fun e m₁ =>
  bindH (hc s m₁ cont) fun k m₂ =>
  (some [exprSlot e, contSlot k, defSlot, defSlot], m₂)

/-- Slots for `Unop(op, cont)` (`get_hash_components_unop`). -/
def getHashComponentsUnopG (hc : ContHasher) (s : Store) (m : RMaps)
    (op : Op1) (cont : ContPtr) : Option (List (Nat × Nat)) × RMaps :=
  bindH (hc s m cont) fun k m₁ =>
  (some [hashOp1 op, contSlot k, defSlot, defSlot], m₁)

/-- Slots for `Binop(op, saved_env, unevaled_args, cont)`
(`get_hash_components_binop`). -/
def getHashComponentsBinopG (he : ExprHasher) (hc : ContHasher) (s : Store)
    (m : RMaps) (op : Op2) (saved_env unevaled_args : Ptr) (cont : ContPtr) :
    Option (List (Nat × Nat)) × RMaps :=
  bindH (he s m saved_env) fun e m₁ =>
  bindH (he s m₁ unevaled_args) fun u m₂ =>
  bindH (hc s m₂ cont) fun k m₃ =>
  (some [hashOp2 op, exprSlot e, exprSlot u, contSlot k], m₃)

/-- Slots for `Binop2(op, arg1, cont)` (`get_hash_components_binop2`). -/
def getHashComponentsBinop2G (he : ExprHasher) (hc : ContHasher) (s : Store)
    (m : RMaps) (op : Op2) (arg1 : Ptr) (cont : ContPtr) :
    Option (List (Nat × Nat)) × RMaps :=
  bindH (he s m arg1) fun a m₁ =>
  bindH (hc s m₁ cont) fun k m₂ =>
  (some [hashOp2 op, exprSlot a, contSlot k, defSlot], m₂)

/-- Slots for `Relop(rel, saved_env, unevaled_args, cont)`
(`get_hash_components_relop`). -/
def getHashComponentsRelopG (he : ExprHasher) (hc : ContHasher) (s : Store)
    (m : RMaps) (rel : Rel2) (saved_env unevaled_args : Ptr) (cont : ContPtr) :
    Option (List (Nat × Nat)) × RMaps :=
  bindH (he s m saved_env) fun e m₁ =>
  bindH (he s m₁ unevaled_args) fun u m₂ =>
  bindH (hc s m₂ cont) fun k m₃ =>
  (some [hashRel2 rel, exprSlot e, exprSlot u, contSlot k], m₃)

/-- Slots for `Relop2(rel, arg1, cont)` (`get_hash_components_relop2`). -/
def getHashComponentsRelop2G (he : ExprHasher) (hc : ContHasher) (s : Store)
    (m : RMaps) (rel : Rel2) (arg1 : Ptr) (cont : ContPtr) :
    Option (List (Nat × Nat)) × RMaps :=
  bindH (he s m arg1) fun a m₁ =>
  bindH (hc s m₁ cont) fun k m₂ =>
  (some [hashRel2 rel, exprSlot a, contSlot k, defSlot], m₂)

/-- Slots for `If(unevaled_args, cont)` (`get_hash_components_if`). -/
def getHashComponentsIfG (he : ExprHasher) (hc : ContHasher) (s : Store)
    (m : RMaps) (unevaled_args : Ptr) (cont : ContPtr) :
    Option (List (Nat × Nat)) × RMaps :=
  bindH (he s m unevaled_args) fun u m₁ =>
  bindH (hc s m₁ cont) fun k m₂ =>
  (some [exprSlot u, contSlot k, defSlot, defSlot], m₂)

/-- Slots for `LetStar(var, body, saved_env, cont)`
(`get_hash_components_let_star`). -/
def getHashComponentsLetStarG (he : ExprHasher) (hc : ContHasher) (s : Store)
    (m : RMaps) (v body saved_env : Ptr) (cont : ContPtr) :
    Option (List (Nat × Nat)) × RMaps :=
  bindH (he s m v) fun a m₁ =>
  bindH (he s m₁ body) fun b m₂ =>
  bindH (he s m₂ saved_env) fun e m₃ =>
  bindH (hc s m₃ cont) fun k m₄ =>
  (some [exprSlot a, exprSlot b, exprSlot e, contSlot k], m₄)

/-- Slots for `LetRecStar(var, body, saved_env, cont)`
(`get_hash_components_let_rec_star`). -/
def getHashComponentsLetRecStarG (he : ExprHasher) (hc : ContHasher) (s : Store)
    (m : RMaps) (v body saved_env : Ptr) (cont : ContPtr) :
    Option (List (Nat × Nat)) × RMaps :=
  bindH (he s m v) fun a m₁ =>
  bindH (he s m₁ body) fun b m₂ =>
  bindH (he s m₂ saved_env) fun e m₃ =>
  bindH (hc s m₃ cont) fun k m₄ =>
  (some [exprSlot a, exprSlot b, exprSlot e, contSlot k], m₄)

/-- Per-variant slot dispatch of `get_hash_components_cont` (the `match` on
the fetched continuation). -/
def contSlotsG (he : ExprHasher) (hc : ContHasher) (s : Store) (m : RMaps) :
    Continuation → Option (List (Nat × Nat)) × RMaps
  | .Outermost => (some getHashComponentsDefault, m)
  | .Dummy => (some getHashComponentsDefault, m)
  | .Terminal => (some getHashComponentsDefault, m)
  | .Error => (some getHashComponentsDefault, m)
  | .Simple c => getHashComponentsSimpleG hc s m c
  | .Call arg saved_env cont => getHashComponentsCallG he hc s m arg saved_env cont
  | .Call2 f saved_env cont => getHashComponentsCall2G he hc s m f saved_env cont
  | .Tail saved_env cont => getHashComponentsTailG he hc s m saved_env cont
  | .Lookup saved_env cont => getHashComponentsLookupG he hc s m saved_env cont
  | .Unop op cont => getHashComponentsUnopG hc s m op cont
  | .Binop op saved_env unevaled_args cont =>
    getHashComponentsBinopG he hc s m op saved_env unevaled_args cont
  | .Binop2 op arg1 cont => getHashComponentsBinop2G he hc s m op arg1 cont
  | .Relop rel saved_env unevaled_args cont =>
    getHashComponentsRelopG he hc s m rel saved_env unevaled_args cont
  | .Relop2 rel arg1 cont => getHashComponentsRelop2G he hc s m rel arg1 cont
  | .If unevaled_args cont => getHashComponentsIfG he hc s m unevaled_args cont
  | .LetStar v body saved_env cont =>
    getHashComponentsLetStarG he hc s m v body saved_env cont
  | .LetRecStar v body saved_env cont =>
    getHashComponentsLetRecStarG he hc s m v body saved_env cont

/-- The flattened 8-element continuation preimage
(`get_hash_components_cont`). -/
def getHashComponentsContG (he : ExprHasher) (hc : ContHasher) (s : Store)
    (m : RMaps) (p : ContPtr) : Option (List Nat) × RMaps :=
  match s.fetchCont p with
  | none => (none, m)
  | some cont =>
    bindH (contSlotsG he hc s m cont) fun slots m₁ =>
    (some (flatten4 slots), m₁)

/-- The fueled hashing engine: `hashers f` is the pair of `hash_expr` and
`hash_cont` with recursion depth at most `f`.  Fuel is the standard embedding
device for the source's general recursion; it is consumed once per
`hash_expr`/`hash_cont` entry. -/
def hashers : Nat → ExprHasher × ContHasher
  | 0 => (fun _ m _ => (none, m), fun _ m _ => (none, m))
  | f + 1 =>
    let he := (hashers f).1
    let hc := (hashers f).2
    ( fun s m p =>
        match p.tag with
        | .Nil => hashNil s m
        | .Cons => hashConsG he s m p
        | .Sym => hashSym s m p
        | .Fun => hashFunG he s m p
        | .Num => hashNum s m p
        | .Str => hashStr s m p
        | .Thunk => hashThunkG he hc s m p,
      fun s m p =>
        bindH (getHashComponentsContG he hc s m p) fun comps m₁ =>
        let r := createContScalarPtr m₁ p (s.h8 comps)
        (some r.1, r.2) )

/-- `hash_expr` at fuel `f`. -/
def hashExpr (f : Nat) : ExprHasher := (hashers f).1

/-- `hash_cont` at fuel `f`. -/
def hashCont (f : Nat) : ContHasher := (hashers f).2

/-- `get_hash_components_cont` at fuel `f` (its recursive sub-hashes run at
fuel `f`). -/
def getHashComponentsCont (f : Nat) (s : Store) (m : RMaps) (p : ContPtr) :
    Option (List Nat) × RMaps :=
  getHashComponentsContG (hashExpr f) (hashCont f) s m p

/-- `get_hash_components_call` at fuel `f`. -/
def getHashComponentsCall (f : Nat) (s : Store) (m : RMaps)
    (arg saved_env : Ptr) (cont : ContPtr) : Option (List (Nat × Nat)) × RMaps :=
  getHashComponentsCallG (hashExpr f) (hashCont f) s m arg saved_env cont

/-- `get_hash_components_call2` at fuel `f`. -/
def getHashComponentsCall2 (f : Nat) (s : Store) (m : RMaps)
    (x saved_env : Ptr) (cont : ContPtr) : Option (List (Nat × Nat)) × RMaps :=
  getHashComponentsCall2G (hashExpr f) (hashCont f) s m x saved_env cont

/-- One-step unfolding of `hash_expr`: fuel `f + 1` dispatches on the tag with
sub-hashes at fuel `f`. -/
theorem hashExpr_succ (f : Nat) (s : Store) (m : RMaps) (p : Ptr) :
    hashExpr (f + 1) s m p =
      match p.tag with
      | .Nil => hashNil s m
      | .Cons => hashConsG (hashExpr f) s m p
      | .Sym => hashSym s m p
      | .Fun => hashFunG (hashExpr f) s m p
      | .Num => hashNum s m p
      | .Str => hashStr s m p
      | .Thunk => hashThunkG (hashExpr f) (hashCont f) s m p := rfl

/-- One-step unfolding of `hash_cont`. -/
theorem hashCont_succ (f : Nat) (s : Store) (m : RMaps) (p : ContPtr) :
    hashCont (f + 1) s m p =
      bindH (getHashComponentsCont f s m p) fun comps m₁ =>
      let r := createContScalarPtr m₁ p (s.h8 comps)
      (some r.1, r.2) := rfl

/-- Fuel 0 yields no expression digest. -/
theorem hashExpr_zero (s : Store) (m : RMaps) (p : Ptr) :
    hashExpr 0 s m p = (none, m) := rfl

/-- Fuel 0 yields no continuation digest. -/
theorem hashCont_zero (s : Store) (m : RMaps) (p : ContPtr) :
    hashCont 0 s m p = (none, m) := rfl

/-- Reverse lookup of an expression scalar pointer (`fetch_scalar`). -/
def fetchScalar (m : RMaps) (sc : ScalarPtr) : Option Ptr :=
  alookup m.exprMap sc

/-- Reverse lookup of a continuation scalar pointer (`fetch_scalar_cont`). -/
def fetchScalarCont (m : RMaps) (sc : ScalarContPtr) : Option ContPtr :=
  alookup m.contMap sc

/-- The empty reverse-map state (a freshly constructed store). -/
def rmEmpty : RMaps := ⟨[], []⟩

/-! ### Elementary properties of the table primitives -/

theorem findIdx_get {α : Type} [DecidableEq α] :
    ∀ {l : List α} {x : α} {i : Nat}, findIdx l x = some i → l.get? i = some x := by
  intro l
  induction l with
  | nil => intro x i h; simp [findIdx] at h
  | cons a t ih =>
    intro x i h
    by_cases hax : a = x
    · simp [findIdx, hax] at h
      subst h; simp [hax]
    · simp [findIdx, hax] at h
      obtain ⟨j, hj, hji⟩ := h
      subst hji
      simpa using ih hj

theorem findIdx_append_left {α : Type} [DecidableEq α] :
    ∀ {l : List α} (t : List α) {x : α} {i : Nat},
      findIdx l x = some i → findIdx (l ++ t) x = some i := by
  intro l
  induction l with
  | nil => intro t x i h; simp [findIdx] at h
  | cons a u ih =>
    intro t x i h
    by_cases hax : a = x
    · simp [findIdx, hax] at h ⊢; exact h
    · simp [findIdx, hax] at h ⊢
      obtain ⟨j, hj, hji⟩ := h
      exact ⟨j, ih t hj, hji⟩

theorem findIdx_append_self {α : Type} [DecidableEq α] :
    ∀ {l : List α} {x : α}, findIdx l x = none →
      findIdx (l ++ [x]) x = some l.length := by
  intro l
  induction l with
  | nil => intro x _; simp [findIdx]
  | cons a u ih =>
    intro x h
    by_cases hax : a = x
    · simp [findIdx, hax] at h
    · simp [findIdx, hax] at h ⊢
      exact ih h

theorem findIdx_lt {α : Type} [DecidableEq α] :
    ∀ {l : List α} {x : α} {i : Nat}, findIdx l x = some i → i < l.length := by
  intro l
  induction l with
  | nil => intro x i h; simp [findIdx] at h
  | cons a t ih =>
    intro x i h
    by_cases hax : a = x
    · simp [findIdx, hax] at h
      subst h; simp
    · simp [findIdx, hax] at h
      obtain ⟨j, hj, hji⟩ := h
      subst hji
      simpa [Nat.succ_lt_succ_iff] using ih hj

theorem insertFull_of_findIdx {α : Type} [DecidableEq α] {l : List α} {x : α}
    {i : Nat} (h : findIdx l x = some i) : insertFull l x = (i, l) := by
  unfold insertFull; rw [h]

theorem insertFull_of_none {α : Type} [DecidableEq α] {l : List α} {x : α}
    (h : findIdx l x = none) : insertFull l x = (l.length, l ++ [x]) := by
  unfold insertFull; rw [h]

theorem insertFull_get {α : Type} [DecidableEq α] (l : List α) (x : α) :
    (insertFull l x).2.get? (insertFull l x).1 = some x := by
  cases h : findIdx l x with
  | some i => rw [insertFull_of_findIdx h]; exact findIdx_get h
  | none => rw [insertFull_of_none h]; simp

theorem insertFull_lt {α : Type} [DecidableEq α] (l : List α) (x : α) :
    (insertFull l x).1 < (insertFull l x).2.length := by
  cases h : findIdx l x with
  | some i => rw [insertFull_of_findIdx h]; exact findIdx_lt h
  | none => rw [insertFull_of_none h]; simp

theorem insertFull_findIdx {α : Type} [DecidableEq α] (l : List α) (x : α) :
    findIdx (insertFull l x).2 x = some (insertFull l x).1 := by
  cases h : findIdx l x with
  | some i => rw [insertFull_of_findIdx h]; exact h
  | none => rw [insertFull_of_none h]; exact findIdx_append_self h

theorem insertFull_snd {α : Type} [DecidableEq α] (l : List α) (x : α) :
    (insertFull l x).2 = l ∨ (insertFull l x).2 = l ++ [x] := by
  cases h : findIdx l x with
  | some i => rw [insertFull_of_findIdx h]; exact Or.inl rfl
  | none => rw [insertFull_of_none h]; exact Or.inr rfl

theorem insertFull_idem {α : Type} [DecidableEq α] (l : List α) (x : α) :
    insertFull (insertFull l x).2 x = insertFull l x :=
  insertFull_of_findIdx (insertFull_findIdx l x)

theorem insertFull_ext {α : Type} [DecidableEq α] (l : List α) (x : α)
    (ext : List α) :
    insertFull ((insertFull l x).2 ++ ext) x =
      ((insertFull l x).1, (insertFull l x).2 ++ ext) :=
  insertFull_of_findIdx (findIdx_append_left ext (insertFull_findIdx l x))

theorem alookup_entryOrInsert_old {α β : Type} [DecidableEq α]
    {l : List (α × β)} {k' : α} {v' : β} (k : α) (v : β)
    (h : alookup l k' = some v') : alookup (entryOrInsert l k v) k' = some v' := by
  unfold entryOrInsert
  cases hk : alookup l k with
  | some w => exact h
  | none =>
    have hne : k' ≠ k := by intro he; rw [he, hk] at h; exact Option.noConfusion h
    simpa [alookup, hne] using h

theorem alookup_entryOrInsert_cases {α β : Type} [DecidableEq α]
    {l : List (α × β)} {k' : α} {v' : β} {k : α} {v : β}
    (h : alookup (entryOrInsert l k v) k' = some v') :
    alookup l k' = some v' ∨ (k' = k ∧ v' = v) := by
  unfold entryOrInsert at h
  cases hk : alookup l k with
  | some w => rw [hk] at h; exact Or.inl h
  | none =>
    rw [hk] at h
    by_cases hkk : k' = k
    · simp [alookup, hkk] at h
      exact Or.inr ⟨hkk, h.symm⟩
    · simp [alookup, hkk] at h
      exact Or.inl h

theorem alookup_entryOrInsert_self {α β : Type} [DecidableEq α]
    (l : List (α × β)) (k : α) (v : β) :
    ∃ w, alookup (entryOrInsert l k v) k = some w := by
  unfold entryOrInsert
  cases hk : alookup l k with
  | some w => exact ⟨w, hk⟩
  | none => exact ⟨v, by simp [alookup]⟩

theorem alookup_entryOrInsert_get {α β : Type} [DecidableEq α]
    (l : List (α × β)) (k : α) (v : β) :
    alookup (entryOrInsert l k v) k = some ((alookup l k).getD v) := by
  unfold entryOrInsert
  cases hk : alookup l k with
  | some w => rw [hk]; rfl
  | none => simp [alookup]

/-! ### Claim C1: the string digest (`hash_string`) -/

theorem chunks7_short (cs : List Nat) (hne : cs ≠ []) (hlen : cs.length ≤ 7) :
    chunks7 cs = [cs] := by
  rcases cs with _ | ⟨a, _ | ⟨b, _ | ⟨c, _ | ⟨d, _ | ⟨e, _ | ⟨f, _ | ⟨g, _ | ⟨h, t⟩⟩⟩⟩⟩⟩⟩⟩
  · exact absurd rfl hne
  all_goals first
    | rfl
    | (exfalso; simp [List.length] at hlen)

theorem hashString_fold_corr (h8 : List Nat → Nat) :
    ∀ (cl : List (List Nat)) (w : Nat) (prev : List Nat) (x : Nat),
      (cl.foldl (hashStringStep h8) (w :: prev, x)).2 =
        (cl.foldl (fun st c => (padChunk st.1 c, h8 (st.2 :: padChunk st.1 c)))
          (prev, x)).2 := by
  intro cl
  induction cl with
  | nil => intro w prev x; rfl
  | cons c cl ih =>
    intro w prev x
    have hstep : hashStringStep h8 (w :: prev, x) c =
        (x :: padChunk prev c, h8 (x :: padChunk prev c)) := by
      simp [hashStringStep, padChunk, List.drop_succ_cons]
    rw [List.foldl_cons, hstep, List.foldl_cons]
    exact ih x (padChunk prev c) (h8 (x :: padChunk prev c))

/-- C1 (amended), part used below: the persistent-buffer fold agrees with the
previous-chunk-padding description for every hash family and input. -/
theorem hashStringNat_eq_amended (h8 : List Nat → Nat) (len : Nat) (cs : List Nat) :
    hashStringNat h8 len cs = hashStringAmended h8 len cs := by
  unfold hashStringNat hashStringAmended
  have h : (List.replicate 8 (0 : Nat)) = 0 :: List.replicate 7 0 := rfl
  rw [h, hashString_fold_corr]

theorem hashStringNat_short (h8 : List Nat → Nat) (len : Nat) (cs : List Nat)
    (hlen : cs.length ≤ 7) :
    hashStringNat h8 len cs = hashStringSpecZeroPad h8 len cs := by
  by_cases hne : cs = []
  · subst hne; rfl
  · have hch := chunks7_short cs hne hlen
    unfold hashStringNat hashStringSpecZeroPad
    rw [hch]
    simp only [List.foldl_cons, List.foldl_nil, hashStringStep]
    have hdrop : (List.replicate 8 (0 : Nat)).drop (cs.length + 1) =
        List.replicate (7 - cs.length) 0 := by
      rw [List.drop_replicate]
      congr 1
      omega
    rw [hdrop]

/-- The concrete sum-based stand-in for the black-box Poseidon family used in
explicit computations below. -/
def addH : List Nat → Nat := fun l => l.foldl (fun a b => a + b) 0 + 1

/-- A concrete default store over the sum-based hash family. -/
def S0 : Store := defaultStore addH addH addH

/-- C1, counterexample: for the 8-character string `"aaaaaaab"` the source's
`hash_string` does NOT zero-pad the partial final chunk: the digest differs
from the spec-described zero-padded digest (slots 2..7 of the second preimage
retain the previous chunk's characters). -/
theorem claim1_counterexample :
    Store.hashString S0 "aaaaaaab" ≠
      hashStringSpecZeroPad S0.h8 (utf8Len "aaaaaaab") (strCodes "aaaaaaab") := by
  decide

/-- C1 (amended): `hash_string` initialises the accumulator to `F(length)`,
partitions the scalar values into chunks of seven left to right, and folds
`x := H₈([x, slot₁, …, slot₇])` over the chunks, returning the final `x`; the
unused slots of a partial chunk retain the corresponding slots of the previous
preimage (zero only when the partial chunk is the first chunk, i.e. for
strings of at most seven characters, for which the spec's zero-padding
description is accurate). -/
theorem claim1_hash_string (s : Store) (str : String) :
    s.hashString str = hashStringAmended s.h8 (utf8Len str) (strCodes str) ∧
      ((strCodes str).length ≤ 7 →
        s.hashString str = hashStringSpecZeroPad s.h8 (utf8Len str) (strCodes str)) :=
  ⟨hashStringNat_eq_amended s.h8 (utf8Len str) (strCodes str),
   fun h => hashStringNat_short s.h8 (utf8Len str) (strCodes str) h⟩

/-- C1, witness: the amended theorem applied to the concrete store `S0` and
the three-character string `"abc"`, whose single partial chunk is genuinely
zero-padded. -/
theorem claim1_witness :
    Store.hashString S0 "abc" =
      hashStringSpecZeroPad S0.h8 (utf8Len "abc") (strCodes "abc") :=
  (claim1_hash_string S0 "abc").2 (by decide)

/-! ### Claim C2: the Call/Call2 continuation preimage layout -/

/-- C2: for a `Call(arg, env, c)` continuation whose three components hash
successfully, `get_hash_components_cont` yields the preimage
`[env.tag, env.hash, arg.tag, arg.hash, c.tag, c.hash, 0, 0]` (env before
arg), which `hash_cont` feeds to `H₈`; `Call2(fun, env, c)` likewise places
env before fun. -/
theorem claim2_call_preimage (f : Nat) (s : Store) (m : RMaps) (p : ContPtr) :
    (∀ arg env c a e k m₁ m₂ m₃,
      s.fetchCont p = some (Continuation.Call arg env c) →
      hashExpr f s m arg = (some a, m₁) →
      hashExpr f s m₁ env = (some e, m₂) →
      hashCont f s m₂ c = (some k, m₃) →
      getHashComponentsCont f s m p =
        (some [e.tag, e.val, a.tag, a.val, k.tag, k.val, 0, 0], m₃) ∧
      (hashCont (f + 1) s m p).1 =
        some ⟨p.tagField, s.h8 [e.tag, e.val, a.tag, a.val, k.tag, k.val, 0, 0]⟩) ∧
    (∀ x env c xs e k m₁ m₂ m₃,
      s.fetchCont p = some (Continuation.Call2 x env c) →
      hashExpr f s m x = (some xs, m₁) →
      hashExpr f s m₁ env = (some e, m₂) →
      hashCont f s m₂ c = (some k, m₃) →
      getHashComponentsCont f s m p =
        (some [e.tag, e.val, xs.tag, xs.val, k.tag, k.val, 0, 0], m₃) ∧
      (hashCont (f + 1) s m p).1 =
        some ⟨p.tagField, s.h8 [e.tag, e.val, xs.tag, xs.val, k.tag, k.val, 0, 0]⟩) := by
  constructor
  · intro arg env c a e k m₁ m₂ m₃ hfc harg henv hcont
    have hghcc : getHashComponentsCont f s m p =
        (some [e.tag, e.val, a.tag, a.val, k.tag, k.val, 0, 0], m₃) := by
      simp only [getHashComponentsCont, getHashComponentsContG, hfc, contSlotsG,
        getHashComponentsCallG, harg, henv, hcont, bindH, flatten4, exprSlot,
        contSlot, defSlot, List.foldr]
    refine ⟨hghcc, ?_⟩
    rw [hashCont_succ]
    simp only [hghcc, bindH, createContScalarPtr]
  · intro x env c xs e k m₁ m₂ m₃ hfc hx henv hcont
    have hghcc : getHashComponentsCont f s m p =
        (some [e.tag, e.val, xs.tag, xs.val, k.tag, k.val, 0, 0], m₃) := by
      simp only [getHashComponentsCont, getHashComponentsContG, hfc, contSlotsG,
        getHashComponentsCall2G, hx, henv, hcont, bindH, flatten4, exprSlot,
        contSlot, defSlot, List.foldr]
    refine ⟨hghcc, ?_⟩
    rw [hashCont_succ]
    simp only [hghcc, bindH, createContScalarPtr]

/-- The canonical NIL pointer of the default store. -/
def nilPtr : Ptr := ⟨Tag.Nil, 0⟩

/-- A concrete numeric pointer. -/
def numPtr : Ptr := ⟨Tag.Num, 0⟩

/-- The canonical Outermost continuation of the default store (the symbol
`"OUTERMOST"` occupies slot 20 of the preload). -/
def outPtr : ContPtr := ⟨ContTag.Outermost, 20⟩

/-- A store holding one Call and one Call2 continuation over NIL components. -/
def S1 : Store :=
  ((S0.internContCall nilPtr nilPtr outPtr).2.internContCall2 nilPtr nilPtr outPtr).2

/-- The interned Call continuation of `S1`. -/
def callPtr : ContPtr := ⟨ContTag.Call, 0⟩

/-- The interned Call2 continuation of `S1`. -/
def call2Ptr : ContPtr := ⟨ContTag.Call2, 0⟩

/-- Reverse maps after hashing NIL once in `S1`. -/
def M1 : RMaps := ⟨[(⟨0, 231⟩, nilPtr)], []⟩

/-- Reverse maps after additionally hashing the Outermost continuation. -/
def M2 : RMaps := ⟨[(⟨0, 231⟩, nilPtr)], [(⟨4096, 1⟩, outPtr)]⟩

/-- C2, witness: the preimage layout evaluated on concrete Call and Call2
continuations (NIL hashes to 231 under the sum-based family, Outermost
to 1). -/
theorem claim2_witness :
    getHashComponentsCont 1 S1 rmEmpty callPtr =
      (some [0, 231, 0, 231, 4096, 1, 0, 0], M2) ∧
    getHashComponentsCont 1 S1 rmEmpty call2Ptr =
      (some [0, 231, 0, 231, 4096, 1, 0, 0], M2) :=
  ⟨((claim2_call_preimage 1 S1 rmEmpty callPtr).1 nilPtr nilPtr outPtr
      ⟨0, 231⟩ ⟨0, 231⟩ ⟨4096, 1⟩ M1 M1 M2
      (by decide) (by decide) (by decide) (by decide)).1,
   ((claim2_call_preimage 1 S1 rmEmpty call2Ptr).2 nilPtr nilPtr outPtr
      ⟨0, 231⟩ ⟨0, 231⟩ ⟨4096, 1⟩ M1 M1 M2
      (by decide) (by decide) (by decide) (by decide)).1⟩

/-! ### Claim C4: canonical interning -/

/-- C4: interning is canonical.  Re-interning the same cons payload returns
the same pointer and leaves the store unchanged; interning in any extension
of the cons table (other operations interleaved) still returns the same
pointer; two cons pointers produced by interning are equal iff their payloads
are equal; and symbol interning is likewise idempotent. -/
theorem claim4_interning_canonical (s : Store) (a b a' b' : Ptr) (n : String) :
    ((s.internCons a b).2.internCons a b = s.internCons a b) ∧
    (((s.internCons a b).2.internCons a' b').1 = (s.internCons a b).1 ↔
      (a', b') = (a, b)) ∧
    (∀ s₂ : Store, ∀ ext, s₂.cons_store = (s.internCons a b).2.cons_store ++ ext →
      (s₂.internCons a b).1 = (s.internCons a b).1) ∧
    ((s.internSymCC n).2.internSymCC n = s.internSymCC n) := by
  refine ⟨?_, ⟨?_, ?_⟩, ?_, ?_⟩
  · simp only [Store.internCons, insertFull_idem]
  · intro h
    have h1 := insertFull_get s.cons_store (a, b)
    have h2 := insertFull_get (insertFull s.cons_store (a, b)).2 (a', b')
    have hraw : (insertFull (insertFull s.cons_store (a, b)).2 (a', b')).1 =
        (insertFull s.cons_store (a, b)).1 := by
      simpa [Store.internCons, Ptr.mk.injEq] using h
    rw [hraw] at h2
    rcases insertFull_snd (insertFull s.cons_store (a, b)).2 (a', b') with hs | hs
    · rw [hs, h1] at h2
      exact (Option.some.inj h2).symm
    · rw [hs, List.get?_append (insertFull_lt s.cons_store (a, b)), h1] at h2
      exact (Option.some.inj h2).symm
  · intro h
    obtain ⟨rfl, rfl⟩ := Prod.ext_iff.mp h
    simp only [Store.internCons, insertFull_idem]
  · intro s₂ ext hext
    simp only [Store.internCons, hext, insertFull_ext]
  · simp only [Store.internSymCC, Store.internSym, insertFull_idem]

/-- A store extending the cons table of `(S0.internCons nilPtr numPtr).2` by
one more entry. -/
def S4a : Store := ((S0.internCons nilPtr numPtr).2.internCons numPtr numPtr).2

/-- C4, witness: interning `cons(nil, num)` in the extended store returns the
pointer produced by the original interning. -/
theorem claim4_witness :
    (S4a.internCons nilPtr numPtr).1 = (S0.internCons nilPtr numPtr).1 :=
  (claim4_interning_canonical S0 nilPtr numPtr nilPtr numPtr "x").2.2.1
    S4a [(numPtr, numPtr)] (by decide)

/-! ### Claim C5: tag-field agreement -/

theorem getNil_eq (s : Store) :
    s.getNil = (findIdx s.sym_store "NIL").map (fun i => ⟨Tag.Nil, i⟩) := rfl

theorem getNil_tag {s : Store} {n : Ptr} (h : s.getNil = some n) :
    n.tag = Tag.Nil := by
  rw [getNil_eq] at h
  obtain ⟨i, _, hi⟩ := Option.map_eq_some'.mp h
  rw [← hi]

theorem createScalarPtr_fst (m : RMaps) (p : Ptr) (h : Nat) :
    (createScalarPtr m p h).1 = ⟨p.tagField, h⟩ := rfl

theorem createContScalarPtr_fst (m : RMaps) (p : ContPtr) (h : Nat) :
    (createContScalarPtr m p h).1 = ⟨p.tagField, h⟩ := rfl

theorem hashSym_tag {s : Store} {m : RMaps} {p : Ptr} {sc : ScalarPtr}
    (h : (hashSym s m p).1 = some sc) : sc.tag = p.tagField := by
  unfold hashSym at h
  split at h
  · exact absurd h (by simp)
  · rw [← Option.some.inj h]; rfl

theorem hashStr_tag {s : Store} {m : RMaps} {p : Ptr} {sc : ScalarPtr}
    (h : (hashStr s m p).1 = some sc) : sc.tag = p.tagField := by
  unfold hashStr at h
  split at h
  · exact absurd h (by simp)
  · rw [← Option.some.inj h]; rfl

theorem hashNum_tag {s : Store} {m : RMaps} {p : Ptr} {sc : ScalarPtr}
    (h : (hashNum s m p).1 = some sc) : sc.tag = p.tagField := by
  unfold hashNum at h
  split at h
  · exact absurd h (by simp)
  · rw [← Option.some.inj h]; rfl

theorem hashExpr_tag : ∀ {f : Nat} {s : Store} {m : RMaps} {p : Ptr}
    {sc : ScalarPtr}, (hashExpr f s m p).1 = some sc → sc.tag = p.tagField := by
  intro f s m p sc h
  cases f with
  | zero => rw [hashExpr_zero] at h; exact absurd h (by simp)
  | succ f =>
    rw [hashExpr_succ] at h
    split at h
    case h_1 htag =>
      unfold hashNil at h
      split at h
      · exact absurd h (by simp)
      case h_2 n hn =>
        rw [hashSym_tag h, Ptr.tagField, Ptr.tagField, getNil_tag hn, htag]
    case h_2 htag =>
      unfold hashConsG at h
      split at h
      · exact absurd h (by simp)
      · unfold bindH at h
        split at h
        · exact absurd h (by simp)
        · rw [← Option.some.inj h]; rfl
    case h_3 htag => exact hashSym_tag h
    case h_4 htag =>
      unfold hashFunG at h
      split at h
      · exact absurd h (by simp)
      · unfold bindH at h
        split at h
        · exact absurd h (by simp)
        · rw [← Option.some.inj h]; rfl
    case h_5 htag => exact hashNum_tag h
    case h_6 htag => exact hashStr_tag h
    case h_7 htag =>
      unfold hashThunkG at h
      split at h
      · exact absurd h (by simp)
      · unfold bindH at h
        split at h
        · exact absurd h (by simp)
        · rw [← Option.some.inj h]; rfl

theorem hashCont_tag : ∀ {f : Nat} {s : Store} {m : RMaps} {c : ContPtr}
    {sc : ScalarContPtr}, (hashCont f s m c).1 = some sc → sc.tag = c.tagField := by
  intro f s m c sc h
  cases f with
  | zero => rw [hashCont_zero] at h; exact absurd h (by simp)
  | succ f =>
    rw [hashCont_succ] at h
    unfold bindH at h
    split at h
    · exact absurd h (by simp)
    · rw [← Option.some.inj h]; rfl

/-- C5: whenever `hash_expr` succeeds, the tag component of the produced
scalar pointer is exactly the pointer's `tag_field` (the 16-bit tag injected
into the field); likewise for `hash_cont` on continuation pointers. -/
theorem claim5_tag_field_agreement (f : Nat) (s : Store) (m : RMaps) (p : Ptr)
    (c : ContPtr) :
    (∀ sc, (hashExpr f s m p).1 = some sc → sc.tag = p.tagField) ∧
    (∀ sc, (hashCont f s m c).1 = some sc → sc.tag = c.tagField) :=
  ⟨fun _ h => hashExpr_tag h, fun _ h => hashCont_tag h⟩

/-- C5, witness: the theorem applied to the NIL pointer and the interned Call
continuation of the concrete store `S1`. -/
theorem claim5_witness :
    (⟨0, 231⟩ : ScalarPtr).tag = Ptr.tagField nilPtr ∧
    (⟨4098, 4560⟩ : ScalarContPtr).tag = ContPtr.tagField callPtr :=
  ⟨(claim5_tag_field_agreement 1 S1 rmEmpty nilPtr callPtr).1 ⟨0, 231⟩ (by decide),
   (claim5_tag_field_agreement 2 S1 rmEmpty nilPtr callPtr).2 ⟨4098, 4560⟩ (by decide)⟩

/-! ### Claim C6: symbol case conversion and NIL -/

/-- C6: `intern_sym_with_case_conversion` upper-cases its argument and tags
the result `Nil` exactly when the upper-cased name is `"NIL"` (`Sym`
otherwise); interning `"nil"` and `"NIL"` is the same operation, and after it
`get_nil` returns precisely the interned pointer (which carries tag Nil). -/
theorem claim6_sym_case_conversion (s : Store) (name : String) :
    ((s.internSymCC name).1.tag =
      if convertSymCase name = "NIL" then Tag.Nil else Tag.Sym) ∧
    (s.internSymCC "nil" = s.internSymCC "NIL") ∧
    ((s.internSymCC "nil").2.getNil = some (s.internSymCC "nil").1) := by
  refine ⟨rfl, ?_, ?_⟩
  · unfold Store.internSymCC
    rw [show convertSymCase "nil" = "NIL" from by decide,
      show convertSymCase "NIL" = "NIL" from by decide]
  · unfold Store.internSymCC Store.internSym Store.getNil Store.getSym
    rw [show convertSymCase "nil" = "NIL" from by decide]
    simp [insertFull_findIdx]

/-! ### Claim C7: `car_cdr` -/

/-- C7: `car_cdr` returns `(NIL, NIL)` on a Nil-tagged pointer, the stored
pair on a Cons-tagged pointer whose slot is live, and an error (modelled
`none`) on every other tag. -/
theorem claim7_car_cdr (s : Store) (p : Ptr) :
    (p.tag = Tag.Nil → ∀ n, s.getNil = some n → s.carCdr p = some (n, n)) ∧
    (p.tag = Tag.Cons → ∀ a b, s.cons_store.get? p.raw = some (a, b) →
      s.carCdr p = some (a, b)) ∧
    (p.tag ≠ Tag.Nil → p.tag ≠ Tag.Cons → s.carCdr p = none) := by
  refine ⟨?_, ?_, ?_⟩
  · intro htag n hn
    unfold Store.carCdr
    rw [htag, hn]
  · intro htag a b hab
    unfold Store.carCdr
    rw [htag]
    simp only [Store.fetch, htag, Store.fetchCons, hab, Option.map_some']
  · intro h1 h2
    unfold Store.carCdr
    cases htag : p.tag
    all_goals simp_all

/-- A store with one interned cons cell `(nil, num)`. -/
def SC : Store := (S0.internCons nilPtr numPtr).2

/-- C7, witness: all three branches evaluated on concrete pointers (note the
Nil-tagged pointer's raw index 5 is irrelevant). -/
theorem claim7_witness :
    SC.carCdr ⟨Tag.Nil, 5⟩ = some (⟨Tag.Nil, 0⟩, ⟨Tag.Nil, 0⟩) ∧
    SC.carCdr ⟨Tag.Cons, 0⟩ = some (nilPtr, numPtr) ∧
    SC.carCdr ⟨Tag.Str, 0⟩ = none :=
  ⟨(claim7_car_cdr SC ⟨Tag.Nil, 5⟩).1 rfl ⟨Tag.Nil, 0⟩ (by decide),
   (claim7_car_cdr SC ⟨Tag.Cons, 0⟩).2.1 rfl nilPtr numPtr (by decide),
   (claim7_car_cdr SC ⟨Tag.Str, 0⟩).2.2 (by decide) (by decide)⟩

/-! ### Claim C8: Num hashes to itself -/

/-- C8: hashing the pointer returned by `intern_num(n)` succeeds (with any
fuel) and produces the identity digest `n.into_scalar()` with tag field
`Num`; no Poseidon call is involved. -/
theorem claim8_num_identity_hash (f : Nat) (s : Store) (m : RMaps) (n : Num) :
    (hashExpr (f + 1) (s.internNum n).2 m (s.internNum n).1).1 =
      some ⟨Tag.Num.val, n.into_scalar⟩ := by
  rw [hashExpr_succ]
  have hget := insertFull_get s.num_store n
  simp only [Store.internNum, hashNum, Store.fetchNum, hget, createScalarPtr,
    Ptr.tagField]

/-! ### Claim C9: `intern_list` is the right cons fold -/

/-- The n-fold right cons with NIL, interning from the tail (the spec's
`cons(e₀, cons(e₁, … cons(eₙ₋₁, NIL)))`). -/
def consFoldr (s : Store) : List Ptr → Ptr × Store
  | [] => s.internSymCC "nil"
  | e :: rest =>
    let r := consFoldr s rest
    r.2.internCons e r.1

theorem consFoldr_eq_foldr (s : Store) (elts : List Ptr) :
    consFoldr s elts =
      elts.foldr (fun e acc => acc.2.internCons e acc.1) (s.internSymCC "nil") := by
  induction elts with
  | nil => rfl
  | cons e rest ih => simp only [consFoldr, ih, List.foldr_cons]

/-- C9: `intern_list([e₀, …, eₙ₋₁])` equals the n-fold right cons ending in
NIL; in particular the empty list interns to the NIL pointer. -/
theorem claim9_intern_list (s : Store) (elts : List Ptr) :
    s.internList elts = consFoldr s elts ∧
    (s.internList []).1 = (s.internSymCC "nil").1 := by
  constructor
  · unfold Store.internList
    rw [List.foldl_reverse, consFoldr_eq_foldr]
  · rfl

/-! ### Claim C10: Nil-tagged pointers never dangle -/

/-- C10: for any pointer whose tag is `Nil`, regardless of its raw index,
`fetch` returns `Some(Nil)` and `hash_expr` coincides with `hash_nil()`,
whose scalar pointer is `(0, hash_string("NIL"))`: the raw index of a
Nil-tagged pointer is never consulted. -/
theorem claim10_nil_never_dangles (f : Nat) (s : Store) (m : RMaps) (p : Ptr)
    (h : p.tag = Tag.Nil) :
    s.fetch p = some Expression.Nil ∧
    hashExpr (f + 1) s m p = hashNil s m ∧
    (∀ n, s.getNil = some n →
      (hashNil s m).1 = some ⟨0, s.hashString "NIL"⟩) := by
  refine ⟨?_, ?_, ?_⟩
  · unfold Store.fetch
    rw [h]
  · rw [hashExpr_succ, h]
  · intro n hn
    unfold hashNil
    rw [hn]
    unfold hashSym
    simp [Store.fetchSym, getNil_tag hn, createScalarPtr, Ptr.tagField, Tag.val]

/-! ### Claim C3: reverse-map round trip

The reverse maps are written only by `create_scalar_ptr` /
`create_cont_scalar_ptr` (the canonical constructors), always with the
pointer whose digest was just computed.  We capture "some hashing run assigns
`q` the scalar `sc`" by `HE` / `HC`, show that hashing only ever adds such
canonical entries (`Ext`), and conclude the round trip under the hypothesis
that `p` is the unique pointer hashing to its scalar (which is exactly what
canonical interning plus collision-freeness of the black-box Poseidon family
provides for pointers produced by the interning API). -/

/-- Pointer `q` is a hash preimage of scalar `sc`: some run of `hash_expr`
assigns `q` the scalar `sc`. -/
def HE (s : Store) (sc : ScalarPtr) (q : Ptr) : Prop :=
  ∃ f m₀, (hashExpr f s m₀ q).1 = some sc

/-- Continuation analogue of `HE`. -/
def HC (s : Store) (sc : ScalarContPtr) (q : ContPtr) : Prop :=
  ∃ f m₀, (hashCont f s m₀ q).1 = some sc

/-- `Ext s m m'`: the reverse maps `m'` extend `m`, every old entry persists,
and every new entry is canonical (its value hashes to its key). -/
structure Ext (s : Store) (m m' : RMaps) : Prop where
  oldE : ∀ k q, alookup m.exprMap k = some q → alookup m'.exprMap k = some q
  oldC : ∀ k q, alookup m.contMap k = some q → alookup m'.contMap k = some q
  newE : ∀ k q, alookup m'.exprMap k = some q →
    alookup m.exprMap k = some q ∨ HE s k q
  newC : ∀ k q, alookup m'.contMap k = some q →
    alookup m.contMap k = some q ∨ HC s k q

theorem ext_refl {s : Store} {m : RMaps} : Ext s m m :=
  ⟨fun _ _ h => h, fun _ _ h => h, fun _ _ h => Or.inl h, fun _ _ h => Or.inl h⟩

theorem ext_trans {s : Store} {m₁ m₂ m₃ : RMaps} (h1 : Ext s m₁ m₂)
    (h2 : Ext s m₂ m₃) : Ext s m₁ m₃ := by
  refine ⟨fun k q h => h2.oldE k q (h1.oldE k q h),
    fun k q h => h2.oldC k q (h1.oldC k q h), fun k q h => ?_, fun k q h => ?_⟩
  · rcases h2.newE k q h with h' | h'
    · exact h1.newE k q h'
    · exact Or.inr h'
  · rcases h2.newC k q h with h' | h'
    · exact h1.newC k q h'
    · exact Or.inr h'

theorem ext_insert_expr {s : Store} {m : RMaps} {k : ScalarPtr} {p : Ptr}
    (hhe : HE s k p) :
    Ext s m { m with exprMap := entryOrInsert m.exprMap k p } := by
  refine ⟨fun k' q' h => alookup_entryOrInsert_old k p h, fun _ _ h => h,
    fun k' q' h => ?_, fun _ _ h => Or.inl h⟩
  rcases alookup_entryOrInsert_cases h with h' | ⟨hk, hq⟩
  · exact Or.inl h'
  · subst hk; subst hq; exact Or.inr hhe

theorem ext_insert_cont {s : Store} {m : RMaps} {k : ScalarContPtr}
    {c : ContPtr} (hhc : HC s k c) :
    Ext s m { m with contMap := entryOrInsert m.contMap k c } := by
  refine ⟨fun _ _ h => h, fun k' q' h => alookup_entryOrInsert_old k c h,
    fun _ _ h => Or.inl h, fun k' q' h => ?_⟩
  rcases alookup_entryOrInsert_cases h with h' | ⟨hk, hq⟩
  · exact Or.inl h'
  · subst hk; subst hq; exact Or.inr hhc

theorem ext_bindH {α β : Type} {s : Store} {m : RMaps} {x : Option α × RMaps}
    {g : α → RMaps → Option β × RMaps} (hx : Ext s m x.2)
    (hg : ∀ a m₁, Ext s m₁ (g a m₁).2) : Ext s m (bindH x g).2 := by
  obtain ⟨o, m₂⟩ := x
  cases o with
  | none => exact hx
  | some a => exact ext_trans hx (hg a m₂)

theorem ext_hashPtrs2G {s : Store} {he : ExprHasher}
    (iheE : ∀ m p, Ext s m (he s m p).2) (m : RMaps) (a b : Ptr) :
    Ext s m (hashPtrs2G he s m a b).2 :=
  ext_bindH (iheE m a) fun _ m₁ => ext_bindH (iheE m₁ b) fun _ _ => ext_refl

theorem ext_hashPtrs3G {s : Store} {he : ExprHasher}
    (iheE : ∀ m p, Ext s m (he s m p).2) (m : RMaps) (a b c : Ptr) :
    Ext s m (hashPtrs3G he s m a b c).2 :=
  ext_bindH (iheE m a) fun _ m₁ => ext_bindH (iheE m₁ b) fun _ m₂ =>
    ext_bindH (iheE m₂ c) fun _ _ => ext_refl

theorem ext_ghcThunkG {s : Store} {he : ExprHasher} {hc : ContHasher}
    (iheE : ∀ m p, Ext s m (he s m p).2)
    (ihcE : ∀ m c, Ext s m (hc s m c).2) (m : RMaps) (th : Thunk) :
    Ext s m (getHashComponentsThunkG he hc s m th).2 :=
  ext_bindH (iheE m th.value) fun _ m₁ =>
    ext_bindH (ihcE m₁ th.continuation) fun _ _ => ext_refl

theorem ext_contSlotsG {s : Store} {he : ExprHasher} {hc : ContHasher}
    (iheE : ∀ m p, Ext s m (he s m p).2)
    (ihcE : ∀ m c, Ext s m (hc s m c).2) (m : RMaps) (cont : Continuation) :
    Ext s m (contSlotsG he hc s m cont).2 := by
  cases cont with
  | Outermost => exact ext_refl
  | Dummy => exact ext_refl
  | Terminal => exact ext_refl
  | Error => exact ext_refl
  | Simple c => exact ext_bindH (ihcE m c) fun _ _ => ext_refl
  | Call a e c =>
    exact ext_bindH (iheE m a) fun _ m₁ => ext_bindH (iheE m₁ e) fun _ m₂ =>
      ext_bindH (ihcE m₂ c) fun _ _ => ext_refl
  | Call2 a e c =>
    exact ext_bindH (iheE m a) fun _ m₁ => ext_bindH (iheE m₁ e) fun _ m₂ =>
      ext_bindH (ihcE m₂ c) fun _ _ => ext_refl
  | Tail e c =>
    exact ext_bindH (iheE m e) fun _ m₁ => ext_bindH (ihcE m₁ c) fun _ _ => ext_refl
  | Lookup e c =>
    exact ext_bindH (iheE m e) fun _ m₁ => ext_bindH (ihcE m₁ c) fun _ _ => ext_refl
  | Unop op c => exact ext_bindH (ihcE m c) fun _ _ => ext_refl
  | Binop op e u c =>
    exact ext_bindH (iheE m e) fun _ m₁ => ext_bindH (iheE m₁ u) fun _ m₂ =>
      ext_bindH (ihcE m₂ c) fun _ _ => ext_refl
  | Binop2 op a c =>
    exact ext_bindH (iheE m a) fun _ m₁ => ext_bindH (ihcE m₁ c) fun _ _ => ext_refl
  | Relop rel e u c =>
    exact ext_bindH (iheE m e) fun _ m₁ => ext_bindH (iheE m₁ u) fun _ m₂ =>
      ext_bindH (ihcE m₂ c) fun _ _ => ext_refl
  | Relop2 rel a c =>
    exact ext_bindH (iheE m a) fun _ m₁ => ext_bindH (ihcE m₁ c) fun _ _ => ext_refl
  | If u c =>
    exact ext_bindH (iheE m u) fun _ m₁ => ext_bindH (ihcE m₁ c) fun _ _ => ext_refl
  | LetStar v b e c =>
    exact ext_bindH (iheE m v) fun _ m₁ => ext_bindH (iheE m₁ b) fun _ m₂ =>
      ext_bindH (iheE m₂ e) fun _ m₃ => ext_bindH (ihcE m₃ c) fun _ _ => ext_refl
  | LetRecStar v b e c =>
    exact ext_bindH (iheE m v) fun _ m₁ => ext_bindH (iheE m₁ b) fun _ m₂ =>
      ext_bindH (iheE m₂ e) fun _ m₃ => ext_bindH (ihcE m₃ c) fun _ _ => ext_refl

theorem ext_ghccG {s : Store} {he : ExprHasher} {hc : ContHasher}
    (iheE : ∀ m p, Ext s m (he s m p).2)
    (ihcE : ∀ m c, Ext s m (hc s m c).2) (m : RMaps) (p : ContPtr) :
    Ext s m (getHashComponentsContG he hc s m p).2 := by
  cases hfc : s.fetchCont p with
  | none => simp only [getHashComponentsContG, hfc]; exact ext_refl
  | some cont =>
    simp only [getHashComponentsContG, hfc]
    exact ext_bindH (ext_contSlotsG iheE ihcE m cont) fun _ _ => ext_refl

/-- Common tail of the expression hashing paths: a component chain followed by
the canonical scalar-pointer constructor (`d` maps the chain output to the
digest: the identity for cons/fun, `H₄` for thunks). -/
theorem chain_create_ext {α : Type} {s : Store} {m : RMaps} {p : Ptr}
    {x : Option α × RMaps} (d : α → Nat) (hx : Ext s m x.2)
    (hhe : ∀ a, x.1 = some a → HE s ⟨p.tagField, d a⟩ p) :
    Ext s m ((bindH x fun a m₁ =>
      let r := createScalarPtr m₁ p (d a)
      (some r.1, r.2)).2) ∧
    ∀ sc, ((bindH x fun a m₁ =>
      let r := createScalarPtr m₁ p (d a)
      (some r.1, r.2)).1 = some sc →
      ∃ q, alookup ((bindH x fun a m₁ =>
        let r := createScalarPtr m₁ p (d a)
        (some r.1, r.2)).2).exprMap sc = some q) := by
  obtain ⟨o, m₂⟩ := x
  cases o with
  | none => exact ⟨hx, fun sc h => absurd h (by simp [bindH])⟩
  | some a =>
    refine ⟨ext_trans hx (ext_insert_expr (hhe a rfl)), fun sc h => ?_⟩
    obtain rfl : sc = ⟨p.tagField, d a⟩ := (Option.some.inj h).symm
    exact alookup_entryOrInsert_self m₂.exprMap _ p

/-- Continuation analogue of `chain_create_ext`. -/
theorem chain_create_ext_cont {s : Store} {m : RMaps} {c : ContPtr}
    {x : Option (List Nat) × RMaps} (hx : Ext s m x.2)
    (hhc : ∀ comps, x.1 = some comps → HC s ⟨c.tagField, s.h8 comps⟩ c) :
    Ext s m ((bindH x fun comps m₁ =>
      let r := createContScalarPtr m₁ c (s.h8 comps)
      (some r.1, r.2)).2) ∧
    ∀ sc, ((bindH x fun comps m₁ =>
      let r := createContScalarPtr m₁ c (s.h8 comps)
      (some r.1, r.2)).1 = some sc →
      ∃ q, alookup ((bindH x fun comps m₁ =>
        let r := createContScalarPtr m₁ c (s.h8 comps)
        (some r.1, r.2)).2).contMap sc = some q) := by
  obtain ⟨o, m₂⟩ := x
  cases o with
  | none => exact ⟨hx, fun sc h => absurd h (by simp [bindH])⟩
  | some comps =>
    refine ⟨ext_trans hx (ext_insert_cont (hhc comps rfl)), fun sc h => ?_⟩
    obtain rfl : sc = ⟨c.tagField, s.h8 comps⟩ := (Option.some.inj h).symm
    exact alookup_entryOrInsert_self m₂.contMap _ c

theorem hashSym_ext_present {s : Store} (m : RMaps) (p : Ptr)
    (hhe : ∀ sc, (hashSym s m p).1 = some sc → HE s sc p) :
    Ext s m (hashSym s m p).2 ∧
    ∀ sc, (hashSym s m p).1 = some sc →
      ∃ q, alookup (hashSym s m p).2.exprMap sc = some q := by
  cases hf : s.fetchSym p with
  | none =>
    simp only [hashSym, hf]
    exact ⟨ext_refl, fun sc h => absurd h (by simp)⟩
  | some str =>
    have heq : hashSym s m p = (some ⟨p.tagField, s.hashString str⟩,
        { m with exprMap :=
            entryOrInsert m.exprMap ⟨p.tagField, s.hashString str⟩ p }) := by
      simp [hashSym, hf, createScalarPtr]
    rw [heq] at hhe ⊢
    refine ⟨ext_insert_expr (hhe _ rfl), fun sc h => ?_⟩
    obtain rfl : sc = ⟨p.tagField, s.hashString str⟩ := (Option.some.inj h).symm
    exact alookup_entryOrInsert_self m.exprMap _ p

theorem hashStr_ext_present {s : Store} (m : RMaps) (p : Ptr)
    (hhe : ∀ sc, (hashStr s m p).1 = some sc → HE s sc p) :
    Ext s m (hashStr s m p).2 ∧
    ∀ sc, (hashStr s m p).1 = some sc →
      ∃ q, alookup (hashStr s m p).2.exprMap sc = some q := by
  cases hf : s.fetchStr p with
  | none =>
    simp only [hashStr, hf]
    exact ⟨ext_refl, fun sc h => absurd h (by simp)⟩
  | some str =>
    have heq : hashStr s m p = (some ⟨p.tagField, s.hashString str⟩,
        { m with exprMap :=
            entryOrInsert m.exprMap ⟨p.tagField, s.hashString str⟩ p }) := by
      simp [hashStr, hf, createScalarPtr]
    rw [heq] at hhe ⊢
    refine ⟨ext_insert_expr (hhe _ rfl), fun sc h => ?_⟩
    obtain rfl : sc = ⟨p.tagField, s.hashString str⟩ := (Option.some.inj h).symm
    exact alookup_entryOrInsert_self m.exprMap _ p

theorem hashNum_ext_present {s : Store} (m : RMaps) (p : Ptr)
    (hhe : ∀ sc, (hashNum s m p).1 = some sc → HE s sc p) :
    Ext s m (hashNum s m p).2 ∧
    ∀ sc, (hashNum s m p).1 = some sc →
      ∃ q, alookup (hashNum s m p).2.exprMap sc = some q := by
  cases hf : s.fetchNum p with
  | none =>
    simp only [hashNum, hf]
    exact ⟨ext_refl, fun sc h => absurd h (by simp)⟩
  | some n =>
    have heq : hashNum s m p = (some ⟨p.tagField, n.into_scalar⟩,
        { m with exprMap :=
            entryOrInsert m.exprMap ⟨p.tagField, n.into_scalar⟩ p }) := by
      simp [hashNum, hf, createScalarPtr]
    rw [heq] at hhe ⊢
    refine ⟨ext_insert_expr (hhe _ rfl), fun sc h => ?_⟩
    obtain rfl : sc = ⟨p.tagField, n.into_scalar⟩ := (Option.some.inj h).symm
    exact alookup_entryOrInsert_self m.exprMap _ p

theorem hashNil_ext_present (s : Store) (m : RMaps) :
    Ext s m (hashNil s m).2 ∧
    ∀ sc, (hashNil s m).1 = some sc →
      ∃ q, alookup (hashNil s m).2.exprMap sc = some q := by
  cases hn : s.getNil with
  | none =>
    simp only [hashNil, hn]
    exact ⟨ext_refl, fun sc h => absurd h (by simp)⟩
  | some n =>
    have heq : hashNil s m = hashSym s m n := by unfold hashNil; rw [hn]
    rw [heq]
    refine hashSym_ext_present m n (fun sc hv => ⟨1, m, ?_⟩)
    have h1 : hashExpr 1 s m n = hashNil s m := by
      rw [hashExpr_succ, getNil_tag hn]
    rw [h1, heq]
    exact hv

/-- The central invariant of hashing: every run only extends the reverse maps
with canonical entries, and a successful run leaves its own scalar pointer
present in the relevant reverse map. -/
theorem hash_ext (f : Nat) :
    (∀ s m p, Ext s m (hashExpr f s m p).2 ∧
      ∀ sc, (hashExpr f s m p).1 = some sc →
        ∃ q, alookup (hashExpr f s m p).2.exprMap sc = some q) ∧
    (∀ s m c, Ext s m (hashCont f s m c).2 ∧
      ∀ sc, (hashCont f s m c).1 = some sc →
        ∃ q, alookup (hashCont f s m c).2.contMap sc = some q) := by
  induction f with
  | zero =>
    refine ⟨fun s m p => ⟨ext_refl, fun sc h => ?_⟩,
      fun s m c => ⟨ext_refl, fun sc h => ?_⟩⟩
    · exact absurd h (by simp [hashExpr_zero])
    · exact absurd h (by simp [hashCont_zero])
  | succ f ih =>
    obtain ⟨ihe, ihc⟩ := ih
    have iheE : ∀ (s : Store) m p, Ext s m (hashExpr f s m p).2 :=
      fun s m p => (ihe s m p).1
    have ihcE : ∀ (s : Store) m c, Ext s m (hashCont f s m c).2 :=
      fun s m c => (ihc s m c).1
    constructor
    · intro s m p
      cases htag : p.tag with
      | Nil =>
        have hstep : hashExpr (f + 1) s m p = hashNil s m := by
          rw [hashExpr_succ, htag]
        rw [hstep]
        exact hashNil_ext_present s m
      | Cons =>
        have hstep : hashExpr (f + 1) s m p = hashConsG (hashExpr f) s m p := by
          rw [hashExpr_succ, htag]
        rw [hstep]
        cases hf : s.fetchCons p with
        | none =>
          simp only [hashConsG, hf]
          exact ⟨ext_refl, fun sc h => absurd h (by simp)⟩
        | some cc =>
          obtain ⟨car, cdr⟩ := cc
          simp only [hashConsG, hf]
          refine chain_create_ext (fun h => h) (ext_hashPtrs2G (iheE s) m car cdr)
            (fun hv hx => ⟨f + 1, m, ?_⟩)
          rw [hstep]
          simp only [hashConsG, hf]
          have hx' : hashPtrs2G (hashExpr f) s m car cdr =
              (some hv, (hashPtrs2G (hashExpr f) s m car cdr).2) := by
            rw [← hx]
          rw [hx']
          simp [bindH, createScalarPtr]
      | Sym =>
        have hstep : hashExpr (f + 1) s m p = hashSym s m p := by
          rw [hashExpr_succ, htag]
        rw [hstep]
        exact hashSym_ext_present m p (fun sc hv => ⟨f + 1, m, by rw [hstep]; exact hv⟩)
      | Fun =>
        have hstep : hashExpr (f + 1) s m p = hashFunG (hashExpr f) s m p := by
          rw [hashExpr_succ, htag]
        rw [hstep]
        cases hf : s.fetchFun p with
        | none =>
          simp only [hashFunG, hf]
          exact ⟨ext_refl, fun sc h => absurd h (by simp)⟩
        | some ff =>
          obtain ⟨arg, body, env⟩ := ff
          simp only [hashFunG, hf]
          refine chain_create_ext (fun h => h) (ext_hashPtrs3G (iheE s) m arg body env)
            (fun hv hx => ⟨f + 1, m, ?_⟩)
          rw [hstep]
          simp only [hashFunG, hf]
          have hx' : hashPtrs3G (hashExpr f) s m arg body env =
              (some hv, (hashPtrs3G (hashExpr f) s m arg body env).2) := by
            rw [← hx]
          rw [hx']
          simp [bindH, createScalarPtr]
      | Num =>
        have hstep : hashExpr (f + 1) s m p = hashNum s m p := by
          rw [hashExpr_succ, htag]
        rw [hstep]
        exact hashNum_ext_present m p (fun sc hv => ⟨f + 1, m, by rw [hstep]; exact hv⟩)
      | Str =>
        have hstep : hashExpr (f + 1) s m p = hashStr s m p := by
          rw [hashExpr_succ, htag]
        rw [hstep]
        exact hashStr_ext_present m p (fun sc hv => ⟨f + 1, m, by rw [hstep]; exact hv⟩)
      | Thunk =>
        have hstep : hashExpr (f + 1) s m p =
            hashThunkG (hashExpr f) (hashCont f) s m p := by
          rw [hashExpr_succ, htag]
        rw [hstep]
        cases hf : s.fetchThunk p with
        | none =>
          simp only [hashThunkG, hf]
          exact ⟨ext_refl, fun sc h => absurd h (by simp)⟩
        | some th =>
          simp only [hashThunkG, hf]
          refine chain_create_ext s.h4 (ext_ghcThunkG (iheE s) (ihcE s) m th)
            (fun comps hx => ⟨f + 1, m, ?_⟩)
          rw [hstep]
          simp only [hashThunkG, hf]
          have hx' : getHashComponentsThunkG (hashExpr f) (hashCont f) s m th =
              (some comps,
                (getHashComponentsThunkG (hashExpr f) (hashCont f) s m th).2) := by
            rw [← hx]
          rw [hx']
          simp [bindH, createScalarPtr]
    · intro s m c
      rw [hashCont_succ]
      refine chain_create_ext_cont (ext_ghccG (iheE s) (ihcE s) m c)
        (fun comps hx => ⟨f + 1, m, ?_⟩)
      rw [hashCont_succ]
      have hx' : getHashComponentsCont f s m c =
          (some comps, (getHashComponentsCont f s m c).2) := by
        rw [← hx]
      rw [hx']
      simp [bindH, createContScalarPtr]

/-- All expression entries of the reverse maps are canonical (their values
hash to their keys).  This holds for the empty maps and is preserved by
hashing (`hash_ext`). -/
def GoodE (s : Store) (m : RMaps) : Prop :=
  ∀ k q, alookup m.exprMap k = some q → HE s k q

/-- Continuation analogue of `GoodE`. -/
def GoodC (s : Store) (m : RMaps) : Prop :=
  ∀ k q, alookup m.contMap k = some q → HC s k q

/-- The four nullary continuation tags, whose hashing never consults the raw
index (their slots are all `DEF`) and performs no sub-hashing. -/
def nullaryContTag (t : ContTag) : Prop :=
  t = ContTag.Outermost ∨ t = ContTag.Error ∨ t = ContTag.Dummy ∨
    t = ContTag.Terminal

/-- A successful `hash_expr` run on the canonical NIL pointer performs exactly
one insert-if-absent of that pointer itself, so the reverse map afterwards
holds the prior entry at the key if there was one, and the pointer
otherwise. -/
theorem hashExpr_nil_run {f : Nat} {s : Store} {m : RMaps} {p : Ptr}
    {sc : ScalarPtr} {m' : RMaps} (htag : p.tag = Tag.Nil)
    (hnil : s.getNil = some p) (hrun : hashExpr f s m p = (some sc, m')) :
    fetchScalar m' sc = some ((fetchScalar m sc).getD p) := by
  cases f with
  | zero => rw [hashExpr_zero] at hrun; exact absurd hrun (by simp)
  | succ f =>
    have hstep : hashExpr (f + 1) s m p = hashSym s m p := by
      rw [hashExpr_succ, htag]
      unfold hashNil
      rw [hnil]
    rw [hstep] at hrun
    have hfs : s.fetchSym p = some "NIL" := by simp [Store.fetchSym, htag]
    unfold hashSym at hrun
    simp only [hfs, createScalarPtr] at hrun
    injection hrun with h1 h2
    injection h1 with h1
    subst h1
    rw [← h2]
    exact alookup_entryOrInsert_get m.exprMap _ p

/-- A successful `hash_cont` run on a nullary continuation performs exactly
one insert-if-absent of that pointer itself (the preimage is all zeros, with
no sub-hashing). -/
theorem hashCont_nullary_run {f : Nat} {s : Store} {m : RMaps} {c : ContPtr}
    {sc : ScalarContPtr} {m' : RMaps} (hn : nullaryContTag c.tag)
    (hrun : hashCont f s m c = (some sc, m')) :
    fetchScalarCont m' sc = some ((fetchScalarCont m sc).getD c) := by
  cases f with
  | zero => rw [hashCont_zero] at hrun; exact absurd hrun (by simp)
  | succ f =>
    rw [hashCont_succ] at hrun
    rcases hn with htag | htag | htag | htag
    · simp only [getHashComponentsCont, getHashComponentsContG, Store.fetchCont,
        htag, contSlotsG, bindH, createContScalarPtr] at hrun
      injection hrun with h1 h2
      injection h1 with h1
      subst h1
      rw [← h2]
      exact alookup_entryOrInsert_get m.contMap _ c
    · simp only [getHashComponentsCont, getHashComponentsContG, Store.fetchCont,
        htag, contSlotsG, bindH, createContScalarPtr] at hrun
      injection hrun with h1 h2
      injection h1 with h1
      subst h1
      rw [← h2]
      exact alookup_entryOrInsert_get m.contMap _ c
    · simp only [getHashComponentsCont, getHashComponentsContG, Store.fetchCont,
        htag, contSlotsG, bindH, createContScalarPtr] at hrun
      injection hrun with h1 h2
      injection h1 with h1
      subst h1
      rw [← h2]
      exact alookup_entryOrInsert_get m.contMap _ c
    · simp only [getHashComponentsCont, getHashComponentsContG, Store.fetchCont,
        htag, contSlotsG, bindH, createContScalarPtr] at hrun
      injection hrun with h1 h2
      injection h1 with h1
      subst h1
      rw [← h2]
      exact alookup_entryOrInsert_get m.contMap _ c

/-- C3: the reverse-map round trip.  If `hash_expr(p)` returns `Some(s)` then
`fetch_scalar(s)` returns `Some(p)`; likewise for continuations.  The
hypothesis covers every pointer the public interning API can return, by one
of two satisfiable alternatives: either the reverse map held only canonical
entries and `p` is the unique pointer whose digest is `sc` (which canonical
interning plus collision-freeness of the black-box Poseidon family provides
for the content-addressed variants), or `p` is the canonical NIL pointer,
respectively a nullary continuation — the classes whose digest ignores the
raw index — and the prior entry at the key, if any, is already `p` (e.g. a
fresh store).  In the second alternative the run inserts `p` itself and
nothing else, so the round trip is direct. -/
theorem claim3_roundtrip (f : Nat) (s : Store) (m : RMaps) :
    (∀ p sc m', hashExpr f s m p = (some sc, m') →
      (GoodE s m ∧ (∀ q, HE s sc q → q = p)) ∨
        (p.tag = Tag.Nil ∧ s.getNil = some p ∧
          (fetchScalar m sc = none ∨ fetchScalar m sc = some p)) →
      fetchScalar m' sc = some p) ∧
    (∀ c sc m', hashCont f s m c = (some sc, m') →
      (GoodC s m ∧ (∀ q, HC s sc q → q = c)) ∨
        (nullaryContTag c.tag ∧
          (fetchScalarCont m sc = none ∨ fetchScalarCont m sc = some c)) →
      fetchScalarCont m' sc = some c) := by
  constructor
  · rintro p sc m' hrun (⟨hgood, huniq⟩ | ⟨htag, hnil, hm⟩)
    · have hmain := (hash_ext f).1 s m p
      obtain ⟨q, hq⟩ := hmain.2 sc (by rw [hrun])
      rw [hrun] at hq
      have hext := hmain.1
      rw [hrun] at hext
      have hHE : HE s sc q := by
        rcases hext.newE sc q hq with hold | hnew
        · exact hgood sc q hold
        · exact hnew
      rw [← huniq q hHE]
      exact hq
    · rw [hashExpr_nil_run htag hnil hrun]
      rcases hm with hm | hm <;> rw [hm] <;> rfl
  · rintro c sc m' hrun (⟨hgood, huniq⟩ | ⟨hn, hm⟩)
    · have hmain := (hash_ext f).2 s m c
      obtain ⟨q, hq⟩ := hmain.2 sc (by rw [hrun])
      rw [hrun] at hq
      have hext := hmain.1
      rw [hrun] at hext
      have hHC : HC s sc q := by
        rcases hext.newC sc q hq with hold | hnew
        · exact hgood sc q hold
        · exact hnew
      rw [← huniq q hHC]
      exact hq
    · rw [hashCont_nullary_run hn hrun]
      rcases hm with hm | hm <;> rw [hm] <;> rfl

/-- A store with the number 5 interned. -/
def SN : Store := (S0.internNum ⟨5⟩).2

/-- Reverse maps after hashing the interned number 5 in `SN`. -/
def MN : RMaps := ⟨[(⟨4, 5⟩, numPtr)], []⟩

/-- Reverse maps after hashing the Call continuation of `S1`. -/
def M3 : RMaps :=
  ⟨[(⟨0, 231⟩, nilPtr)], [(⟨4098, 4560⟩, callPtr), (⟨4096, 1⟩, outPtr)]⟩

theorem goodE_empty (s : Store) : GoodE s rmEmpty := by
  intro k q h
  simp [rmEmpty, alookup] at h

theorem goodC_empty (s : Store) : GoodC s rmEmpty := by
  intro k q h
  simp [rmEmpty, alookup] at h

/-- The interned number 5 is the unique pointer of `SN` hashing to the scalar
`(Num, 5)`. -/
theorem uniq_num_scalar : ∀ q, HE SN ⟨4, 5⟩ q → q = numPtr := by
  rintro ⟨t, r⟩ ⟨f₀, m₀, hq⟩
  have htag := hashExpr_tag hq
  cases t <;> simp [Ptr.tagField, Tag.val] at htag
  -- only the Num tag survives
  cases f₀ with
  | zero => rw [hashExpr_zero] at hq; exact absurd hq (by simp)
  | succ f =>
    have hq' : (hashNum SN m₀ ⟨Tag.Num, r⟩).1 = some ⟨4, 5⟩ := hq
    cases r with
    | zero => rfl
    | succ r' =>
      exfalso
      have hns : SN.num_store = [⟨5⟩] := by decide
      have hfn : SN.fetchNum ⟨Tag.Num, r' + 1⟩ = none := by
        simp [Store.fetchNum, hns]
      rw [hashNum, hfn] at hq'
      exact absurd hq' (by simp)

/-- The interned Call continuation is the unique continuation pointer of `S1`
hashing to its scalar. -/
theorem uniq_call_scalar : ∀ q, HC S1 ⟨4098, 4560⟩ q → q = callPtr := by
  rintro ⟨t, r⟩ ⟨f₀, m₀, hq⟩
  have htag := hashCont_tag hq
  cases t <;> simp [ContPtr.tagField, ContTag.val] at htag
  -- only the Call tag survives
  cases f₀ with
  | zero => rw [hashCont_zero] at hq; exact absurd hq (by simp)
  | succ f =>
    cases r with
    | zero => rfl
    | succ r' =>
      exfalso
      have hcs : S1.call_store = [(nilPtr, nilPtr, outPtr)] := by decide
      have hfc : S1.fetchCont ⟨ContTag.Call, r' + 1⟩ = none := by
        simp [Store.fetchCont, hcs]
      rw [hashCont_succ] at hq
      simp only [getHashComponentsCont, getHashComponentsContG, hfc, bindH] at hq
      exact absurd hq (by simp)

/-- Reverse maps after hashing the Outermost continuation in `S0`. -/
def Mout : RMaps := ⟨[], [(⟨4096, 1⟩, outPtr)]⟩

/-- C3, witness: the round trip evaluated on four API-interned pointers of
concrete stores — the canonical NIL pointer and the canonical Outermost
continuation (second alternative of the hypothesis), and the interned number
5 and the interned Call continuation (first alternative, with the canonicity
and uniqueness hypotheses discharged concretely). -/
theorem claim3_witness :
    fetchScalar M1 ⟨0, 231⟩ = some nilPtr ∧
    fetchScalar MN ⟨4, 5⟩ = some numPtr ∧
    fetchScalarCont Mout ⟨4096, 1⟩ = some outPtr ∧
    fetchScalarCont M3 ⟨4098, 4560⟩ = some callPtr :=
  ⟨(claim3_roundtrip 1 S0 rmEmpty).1 nilPtr ⟨0, 231⟩ M1 (by decide)
      (Or.inr ⟨rfl, by decide, Or.inl rfl⟩),
   (claim3_roundtrip 1 SN rmEmpty).1 numPtr ⟨4, 5⟩ MN (by decide)
      (Or.inl ⟨goodE_empty SN, uniq_num_scalar⟩),
   (claim3_roundtrip 1 S0 rmEmpty).2 outPtr ⟨4096, 1⟩ Mout (by decide)
      (Or.inr ⟨Or.inl rfl, Or.inl rfl⟩),
   (claim3_roundtrip 2 S1 rmEmpty).2 callPtr ⟨4098, 4560⟩ M3 (by decide)
      (Or.inl ⟨goodC_empty S1, uniq_call_scalar⟩)⟩

/-- C10, witness: the dangling-proof property evaluated at the Nil-tagged
pointer with raw index 99 in the concrete store `S0`. -/
theorem claim10_witness :
    S0.fetch ⟨Tag.Nil, 99⟩ = some Expression.Nil ∧
    hashExpr 1 S0 rmEmpty ⟨Tag.Nil, 99⟩ = hashNil S0 rmEmpty ∧
    (hashNil S0 rmEmpty).1 = some ⟨0, Store.hashString S0 "NIL"⟩ :=
  ⟨(claim10_nil_never_dangles 0 S0 rmEmpty ⟨Tag.Nil, 99⟩ rfl).1,
   (claim10_nil_never_dangles 0 S0 rmEmpty ⟨Tag.Nil, 99⟩ rfl).2.1,
   (claim10_nil_never_dangles 0 S0 rmEmpty ⟨Tag.Nil, 99⟩ rfl).2.2
     ⟨Tag.Nil, 0⟩ (by decide)⟩

end LurkStore
